import Mathlib

/-! resh: the session-keyed merge store (pkg/histfile/histfile.go) and the history
sanitizer (cmd/sanitize/main.go)

A shallow embedding of `Histfile` and of the bodies of its three loops
(`writer`, `sessionGC`, `mergeAndWriteRecord`), and of the string functions of the
sanitizer, followed by theorems about them.

Conventions of the embedding
* A Go `map[string]V` is an association list `GoMap V`; `get?`, `set` and `delete`
  are the three map operations the source uses.
* Everything a loop body does besides changing the `Histfile` struct is recorded in
  `World`: lines appended to files, goroutines started with the `go` statement,
  values sent on `shutdownDone`, log lines, and a panic once one was raised.
* `records.Record.Merge` and the operating-system calls of `writeRecord` are not in
  this package; they are parameters, collected in `Env`.
* The conventions for the strings of the sanitizer are stated where its
  definitions start.
-/

namespace Resh

/-! ## Data model -/

/-- Modelled from the spec: the type `records.Record` (package pkg/records) is used
by histfile.go but declared elsewhere. The fields are the ones histfile.go reads
(`SessionID`, `Shlvl`, `PartOne`, `CmdLine`); `Payload` stands for the remaining
descriptive fields, which the merge store never inspects. -/
structure Record where
  SessionID : String
  Shlvl : Int
  PartOne : Bool
  CmdLine : String
  Payload : String
deriving DecidableEq, Repr

/-- A Go `map[string]V`, as an association list. -/
abbrev GoMap (V : Type) := List (String × V)

/-- The map read `v, found := m[k]`. -/
def GoMap.get? {V : Type} : GoMap V → String → Option V
  | [], _ => none
  | (k1, v) :: rest, k => if k1 = k then some v else GoMap.get? rest k

/-- The statement `delete(m, k)`. -/
def GoMap.delete {V : Type} (m : GoMap V) (k : String) : GoMap V :=
  m.filter (fun e => decide (e.1 ≠ k))

/-- The assignment `m[k] = v`. -/
def GoMap.set {V : Type} (m : GoMap V) (k : String) (v : V) : GoMap V :=
  (k, v) :: GoMap.delete m k

/-- The function `strconv.Itoa`: the decimal representation of an integer. -/
def Itoa : Int → String
  | Int.ofNat m => Nat.repr m
  | Int.negSucc m => "-" ++ Nat.repr (m + 1)

/-- The struct `histlist.Histlist`, by the two fields histfile.go uses: the ordered
sequence `List` and the map `LastIndex` from a command line to an index. -/
structure Histlist where
  LastIndex : GoMap Nat
  List : List String
deriving DecidableEq, Repr

/-- The value `histlist.New()` returns: no command line, no index. -/
def Histlist.New : Histlist := { LastIndex := [], List := [] }

/-- The struct `Histfile` (the two mutexes carry no data). -/
structure Histfile where
  sessions : GoMap Record
  historyPath : String
  recentRecords : List Record
  cmdLines : Histlist
deriving DecidableEq, Repr

/-- A call started with the `go` statement. -/
inductive Goroutine where
  | writeRecord (rec : Record) (outputPath : String)
  | mergeAndWriteRecord (part1 part2 : Record)
deriving DecidableEq, Repr

/-- The `Histfile` together with everything its loops do to the outside. -/
structure World where
  h : Histfile
  /-- every line appended so far, with the path of the file it went to -/
  disk : List (String × Record)
  /-- goroutines started so far, oldest first -/
  spawned : List Goroutine
  /-- values sent on the channel `shutdownDone`, oldest first -/
  shutdownDone : List String
  /-- log lines, oldest first -/
  log : List String
  /-- the message of the panic that ended the program, if one was raised -/
  panicked : Option String
deriving DecidableEq, Repr

/-- What the three fallible calls of `writeRecord` do on one invocation. -/
inductive IOResult where
  | ok
  | marshalErr
  | openErr
  | writeErr
deriving DecidableEq, Repr

/-- The parts of the program that live outside histfile.go. -/
structure Env where
  /-- the method `part1.Merge(part2)`: an error, or `part1` as it is after the merge -/
  Merge : Record → Record → Except String Record
  /-- the outcome of `json.Marshal`, `os.OpenFile` and `f.Write` for a record and a path -/
  io : Record → String → IOResult

/-- The state `New` builds: an empty session table, recent buffer and index. -/
def New (historyPath : String) : World :=
  { h := { sessions := [], historyPath := historyPath, recentRecords := [],
           cmdLines := Histlist.New },
    disk := [], spawned := [], shutdownDone := [], log := [], panicked := none }

/-! ## Operations -/

/-- The call `log.Println`: one more log line. -/
def logPrintln (msg : String) (w : World) : World :=
  { w with log := w.log ++ [msg] }

/-- The call `log.Panicln`: `Println` followed by `panic`. -/
def logPanicln (msg : String) (w : World) : World :=
  { w with log := w.log ++ [msg], panicked := some msg }

/-- A `go` statement: the call is started, the caller does not wait for it. -/
def go (g : Goroutine) (w : World) : World :=
  { w with spawned := w.spawned ++ [g] }

/-- The function `writeRecord`: marshal the record, open the file for appending and
write one line; each of the three errors is logged (the log line is kept without the
text of the error) and the record dropped. -/
def writeRecord (env : Env) (rec : Record) (outputPath : String) (w : World) : World :=
  match env.io rec outputPath with
  | IOResult.marshalErr => logPrintln "Marshalling error" w
  | IOResult.openErr => logPrintln "Could not open file" w
  | IOResult.writeErr => logPrintln "Error while writing" w
  | IOResult.ok => { w with disk := w.disk ++ [(outputPath, rec)] }

/-- The method `Histfile.writeRecord`. -/
def Histfile.writeRecord (env : Env) (part1 : Record) (w : World) : World :=
  Resh.writeRecord env part1 w.h.historyPath w

/-- The index update of `mergeAndWriteRecord` (the statements on `h.cmdLines`):
drop the element at the remembered index when the command line has one, remember
the new length as its index, append it. The slice expression
`List[idx+1:]` panics when `idx+1` exceeds the length. -/
def Histlist.touch (cmdLine : String) (hl : Histlist) : Except String Histlist :=
  match hl.LastIndex.get? cmdLine with
  | some idx =>
    if idx + 1 ≤ hl.List.length then
      let l1 := hl.List.take idx ++ hl.List.drop (idx + 1)
      Except.ok { LastIndex := hl.LastIndex.set cmdLine l1.length, List := l1 ++ [cmdLine] }
    else
      Except.error "slice bounds out of range"
  | none =>
    Except.ok { LastIndex := hl.LastIndex.set cmdLine hl.List.length,
                List := hl.List ++ [cmdLine] }

/-- The closure of `mergeAndWriteRecord` that runs under `recentMutex`: append the
merged record to `recentRecords`, then update `cmdLines`. -/
def publish (part1 : Record) (w : World) : World :=
  let w1 := { w with h := { w.h with recentRecords := w.h.recentRecords ++ [part1] } }
  match Histlist.touch part1.CmdLine w1.h.cmdLines with
  | Except.ok hl => { w1 with h := { w1.h with cmdLines := hl } }
  | Except.error msg => { w1 with panicked := some msg }

/-- The method `Histfile.mergeAndWriteRecord`. -/
def mergeAndWriteRecord (env : Env) (part1 part2 : Record) (w : World) : World :=
  match env.Merge part1 part2 with
  | Except.error err => logPrintln ("Error while merging " ++ err) w
  | Except.ok merged =>
    let w1 := publish merged w
    if w1.panicked.isSome then w1 else writeRecord env merged w1.h.historyPath w1

/-- One started goroutine running to completion. -/
def Goroutine.run (env : Env) : Goroutine → World → World
  | Goroutine.writeRecord rec outputPath, w => Resh.writeRecord env rec outputPath w
  | Goroutine.mergeAndWriteRecord part1 part2, w => Resh.mergeAndWriteRecord env part1 part2 w

/-- The body of the loop of `sessionGC` for one value received from `sessionsToDrop`. -/
def sessionGCBody (session : String) (w : World) : World :=
  let w1 := logPrintln ("histfile: got session to drop " ++ session) w
  match w1.h.sessions.get? session with
  | some part1 =>
    let w2 := logPrintln ("histfile: Dropping session: " ++ session) w1
    let w3 := { w2 with h := { w2.h with sessions := w2.h.sessions.delete session } }
    go (Goroutine.writeRecord part1 w3.h.historyPath) w3
  | none => logPrintln ("histfile: No hanging parts for session: " ++ session) w1

/-- The key of a record in the session table. -/
def mergeID (record : Record) : String :=
  record.SessionID ++ "_" ++ Itoa record.Shlvl

/-- The `for ... range h.sessions` loop of the shutdown case: for each entry
`log.Panicln`, then `h.writeRecord`. A panic ends the loop. -/
def shutdownRange (env : Env) : List (String × Record) → World → World
  | [], w => w
  | (sessID, record) :: rest, w =>
    let w1 := logPanicln ("histfile WARN: Writing incomplete record for session " ++ sessID) w
    if w1.panicked.isSome then w1
    else shutdownRange env rest (Histfile.writeRecord env record w1)

/-- The line `writer` logs when a first half replaces a pending one. -/
def overwriteWarning : String :=
  "histfile WARN: Got another first part of the records before merging the previous one - overwriting! " ++
  "(this happens in bash because bash-preexec runs when it's not supposed to)"

/-- What the `select` of `writer` received. -/
inductive Select where
  | input (record : Record)
  | signals (sig : String)
deriving DecidableEq, Repr

/-- The body of the loop of `writer` for one received value. -/
def writerBody (env : Env) (sel : Select) (w : World) : World :=
  match sel with
  | Select.input record =>
    let mergeID := mergeID record
    if record.PartOne then
      let w1 :=
        if (w.h.sessions.get? mergeID).isSome then
          logPrintln overwriteWarning w
        else w
      { w1 with h := { w1.h with sessions := w1.h.sessions.set mergeID record } }
    else
      match w.h.sessions.get? mergeID with
      | none =>
        logPrintln ("histfile ERROR: Got second part of records and nothing to merge it with - ignoring! (mergeID: " ++ mergeID ++ " )") w
      | some part1 =>
        let w1 := { w with h := { w.h with sessions := w.h.sessions.delete mergeID } }
        go (Goroutine.mergeAndWriteRecord part1 record) w1
  | Select.signals sig =>
    let w1 := logPrintln ("histfile: Got signal " ++ sig) w
    let w2 := logPrintln "histfile DEBUG: Unlocked mutex" w1
    let w3 := shutdownRange env w2.h.sessions w2
    if w3.panicked.isSome then w3
    else
      let w4 := logPrintln "histfile DEBUG: Shutdown success" w3
      { w4 with shutdownDone := w4.shutdownDone ++ ["histfile"] }

/-- The loop of `writer` over the values its `select` receives, in order. The
`return` of the shutdown case leaves the closure, not the loop; only a panic ends
the loop. -/
def writer (env : Env) : List Select → World → World
  | [], w => w
  | sel :: rest, w =>
    let w1 := writerBody env sel w
    if w1.panicked.isSome then w1 else writer env rest w1

/-- The closure of `mergeAndWriteRecord` applied to a sequence of merged records. -/
def publishAll : List Record → World → World
  | [], w => w
  | r :: rest, w =>
    let w1 := publish r w
    if w1.panicked.isSome then w1 else publishAll rest w1

/-- A merged record with the given command line. -/
def cmd (c : String) : Record :=
  { SessionID := "s1", Shlvl := 1, PartOne := false, CmdLine := c, Payload := "" }

/-- The first half of the example `ls -la`, run in session `s1` at shell level 1. -/
def preLs : Record :=
  { SessionID := "s1", Shlvl := 1, PartOne := true, CmdLine := "ls -la", Payload := "" }

/-- A second first half for the example, with another command line. -/
def preCd : Record :=
  { SessionID := "s1", Shlvl := 1, PartOne := true, CmdLine := "cd /tmp", Payload := "" }

/-- A first half of another session, `s2`. -/
def preS2 : Record :=
  { SessionID := "s2", Shlvl := 1, PartOne := true, CmdLine := "make", Payload := "" }

/-- The second half of the same example. -/
def postLs : Record :=
  { SessionID := "s1", Shlvl := 1, PartOne := false, CmdLine := "", Payload := "exit 0" }

/-- The two halves of the example merged. -/
def mergedLs : Record :=
  { SessionID := "s1", Shlvl := 1, PartOne := false, CmdLine := "ls -la", Payload := "exit 0" }

/-- An environment for the examples: a merge that accepts a first half followed by a
second half of the same session and takes the descriptive fields of the second, and
file operations that all succeed. -/
def demoEnv : Env :=
  { Merge := fun part1 part2 =>
      if part1.PartOne && !part2.PartOne && part1.SessionID == part2.SessionID then
        Except.ok { part1 with PartOne := false, Payload := part2.Payload }
      else Except.error "Expected part1 and part2 of the same record",
    io := fun _ _ => IOResult.ok }

/-- Every remembered index points inside the sequence. -/
def Histlist.InRange (hl : Histlist) : Prop :=
  ∀ e ∈ hl.LastIndex, e.2 < hl.List.length

instance (hl : Histlist) : Decidable hl.InRange := by
  unfold Histlist.InRange
  infer_instance

/-! ## The sanitizer (cmd/sanitize/main.go)

A string the sanitizer only inspects bytewise (lengths, slices, map keys, hashes,
byte search) is the list of its bytes. A string whose runes are read with
`for ... range` is a Lean `String`, that is valid UTF-8 text, which is what
`json.Unmarshal` hands to the sanitizer; `utf8` gives its bytes. The functions of the
Go standard library whose tables are not part of the program are collected in `Lib`.
Log lines of the sanitizer are left out. -/

/-- The bytes of a string, its UTF-8 encoding; `len(s)` is the length of this list. -/
def utf8 (s : String) : List UInt8 :=
  s.data.flatMap String.utf8EncodeChar

/-- Go standard library functions used by the sanitizer: the predicates
`unicode.IsLetter`, `unicode.IsDigit`, `unicode.IsSpace`, the function
`strings.ToLower`, and `Sum`, the 20-byte SHA-1 digest `h.Sum(nil)` of the bytes
written to `sha1.New()`. -/
structure Lib where
  IsLetter : Char → Bool
  IsDigit : Char → Bool
  IsSpace : Char → Bool
  ToLower : List UInt8 → List UInt8
  Sum : List UInt8 → List UInt8

/-- The struct `sanitizer`. The map `whitelist` is only ever read, so it is given by
its read `whitelist[k]`, which is `false` for an absent key. -/
structure sanitizer where
  hashLength : Int
  whitelist : List UInt8 → Bool

/-- The function `strings.HasPrefix`. -/
def HasPrefix (s pre : List UInt8) : Bool :=
  pre.isPrefixOf s

/-- The function `strings.Contains`: `substr` starts at some position of `s`. -/
def Contains : List UInt8 → List UInt8 → Bool
  | [], substr => substr.isEmpty
  | c :: cs, substr => substr.isPrefixOf (c :: cs) || Contains cs substr

/-- The scan of `strings.Split` for a non-empty separator: `skip` counts the bytes
of a separator just matched that are still to be passed over, `acc` is the piece
read so far. -/
def Split.scan (sep : List UInt8) : List UInt8 → Nat → List UInt8 → List (List UInt8)
  | [], _, acc => [acc]
  | _ :: cs, skip + 1, acc => Split.scan sep cs skip acc
  | c :: cs, 0, acc =>
    if sep.isPrefixOf (c :: cs) then acc :: Split.scan sep cs (sep.length - 1) []
    else Split.scan sep cs 0 (acc ++ [c])

/-- The function `strings.Split(s, sep)` for a non-empty `sep`: the pieces between
the occurrences of `sep`, found from the left without overlap. (The sanitizer never
passes an empty separator; for one this definition returns `s` whole.) -/
def Split (s sep : List UInt8) : List (List UInt8) :=
  if sep.isEmpty then [s] else Split.scan sep s 0 []

/-- The digit `hextable[n]` of `encoding/hex`. -/
def hexDigit (n : Nat) : UInt8 :=
  (utf8 "0123456789abcdef").getD n 0

/-- The function `hex.EncodeToString`: two hexadecimal digits for each byte. -/
def EncodeToString (src : List UInt8) : List UInt8 :=
  src.flatMap (fun v => [hexDigit (v.toNat / 16), hexDigit (v.toNat % 16)])

/-- A slice expression `s[lo:]`; out of range it panics. -/
def sliceFrom (s : List UInt8) (lo : Nat) : Except String (List UInt8) :=
  if lo ≤ s.length then Except.ok (s.drop lo) else Except.error "slice bounds out of range"

/-- The method `sanitizer.trimHash`. The slice `hash[:length]` is in range on both
paths, since `length` is then between 1 and `len(hash)`, or equal to `len(hash)`. -/
def sanitizer.trimHash (s : sanitizer) (hash : List UInt8) : List UInt8 :=
  let length := s.hashLength
  let length := if length ≤ 0 ∨ (hash.length : Int) < length then (hash.length : Int) else length
  hash.take length.toNat

/-- The method `sanitizer.hashToken`. -/
def sanitizer.hashToken (lib : Lib) (s : sanitizer) (token : List UInt8) : List UInt8 :=
  if token.length ≤ 0 then token
  else
    let sum := lib.Sum token
    s.trimHash (EncodeToString sum)

/-- The method `sanitizer.isInWhitelist`. -/
def sanitizer.isInWhitelist (lib : Lib) (s : sanitizer) (token : List UInt8) : Bool :=
  s.whitelist (lib.ToLower token) == true

/-- The method `sanitizer.sanitizeToken`. -/
def sanitizer.sanitizeToken (lib : Lib) (s : sanitizer) (token : List UInt8) : List UInt8 :=
  if token.length ≤ 1 then token
  else if s.isInWhitelist lib token then token
  else s.hashToken lib token

/-- The loop of `sanitizeCmdToken` over the runes of the token: the two flags
`isLettersOrDigits` and `isOtherCharacters`. -/
def sanitizer.sanitizeCmdToken.flags (lib : Lib) : List Char → Bool × Bool → Bool × Bool
  | [], fl => fl
  | r :: rest, (isLettersOrDigits, isOtherCharacters) =>
    let isLettersOrDigits :=
      if lib.IsDigit r == false && lib.IsLetter r == false then false else isLettersOrDigits
    let isOtherCharacters :=
      if lib.IsDigit r || lib.IsLetter r then false else isOtherCharacters
    sanitizer.sanitizeCmdToken.flags lib rest (isLettersOrDigits, isOtherCharacters)

/-- The method `sanitizer.sanitizeCmdToken`: the sanitized token and the error. -/
def sanitizer.sanitizeCmdToken (lib : Lib) (s : sanitizer) (token : String) :
    List UInt8 × Option String :=
  if (utf8 token).length ≤ 1 then (utf8 token, none)
  else if s.isInWhitelist lib (utf8 token) == true then (utf8 token, none)
  else
    match sanitizer.sanitizeCmdToken.flags lib token.data (true, true) with
    | (isLettersOrDigits, isOtherCharacters) =>
      if isLettersOrDigits then (s.hashToken lib (utf8 token), none)
      else if isOtherCharacters then (utf8 token, none)
      else (s.hashToken lib (utf8 token),
            some "cmd token is made of mix of letters or digits and other characters")

/-- The method `sanitizer.sanitizePath`. The final slice drops the last byte, the
`/` appended after the last token. -/
def sanitizer.sanitizePath (lib : Lib) (s : sanitizer) (path : List UInt8) : List UInt8 :=
  let sanPath := (Split path (utf8 "/")).foldl
    (fun sanPath token =>
      let token := if s.whitelist token != true then s.hashToken lib token else token
      sanPath ++ (token ++ utf8 "/"))
    []
  if sanPath.length > 0 then sanPath.take (sanPath.length - 1) else sanPath

/-- The body of the loop of `sanitizeRecallActions` over the pieces of the split,
`x` being the index of the piece. The outer `Except` is a panic, the inner pair is
what the function returns: the string and the error. -/
def sanitizer.sanitizeRecallActions.loop (str : List UInt8) :
    Nat → List (List UInt8) → List UInt8 → Except String (List UInt8 × Option (List UInt8))
  | _, [], sanStr => Except.ok (sanStr, none)
  | x, actionStr :: rest, sanStr =>
    if x = 0 then sanitizer.sanitizeRecallActions.loop str (x + 1) rest sanStr
    else if actionStr.length = 0 then
      Except.ok (str, some (utf8 ("Action can't be empty; idx=" ++ Itoa x)))
    else if HasPrefix actionStr (utf8 "up:") then
      if actionStr.length < 3 then
        Except.ok (str, some (utf8 "Action is too short:" ++ actionStr))
      else
        match (if actionStr.length ≠ 3 then sliceFrom actionStr 4 else Except.ok []) with
        | Except.error msg => Except.error msg
        | Except.ok pfx =>
          sanitizer.sanitizeRecallActions.loop str (x + 1) rest
            (sanStr ++ (utf8 "|||" ++ utf8 "arrow_up" ++ utf8 ":" ++ utf8 (Itoa pfx.length)))
    else if HasPrefix actionStr (utf8 "down:") then
      if actionStr.length < 5 then
        Except.ok (str, some (utf8 "Action is too short:" ++ actionStr))
      else
        match (if actionStr.length ≠ 5 then sliceFrom actionStr 6 else Except.ok []) with
        | Except.error msg => Except.error msg
        | Except.ok pfx =>
          sanitizer.sanitizeRecallActions.loop str (x + 1) rest
            (sanStr ++ (utf8 "|||" ++ utf8 "arrow_down" ++ utf8 ":" ++ utf8 (Itoa pfx.length)))
    else
      Except.ok (str, some (utf8 "Action should start with one of (arrow_up, arrow_down); got: arrow_" ++ actionStr))

/-- The method `sanitizer.sanitizeRecallActions`. -/
def sanitizer.sanitizeRecallActions (str : List UInt8) :
    Except String (List UInt8 × Option (List UInt8)) :=
  let divider := if Contains str (utf8 "|||") then utf8 "|||" else utf8 ";"
  sanitizer.sanitizeRecallActions.loop str 0 (Split str (divider ++ utf8 "arrow_")) []

/-- The constant `optionEndingChars` of `sanitizeCmdLine`. -/
def optionEndingChars : String :=
  "\"$'\\#[]!><|;\x7b\x7d()*,?~&=`:@^/+%."

/-- The constant `optionAllowedChars` of `sanitizeCmdLine`. -/
def optionAllowedChars : String := "-_"

/-- The function `strings.ContainsRune` on valid UTF-8 text. -/
def ContainsRune (s : String) (r : Char) : Bool :=
  s.data.contains r

/-- The local variables of `sanitizeCmdLine`. -/
structure CmdLineVars where
  sanCmdLine : List UInt8
  buff : String
  optionDetected : Bool
  prevR3 : Char
  prevR2 : Char
  prevR : Char

/-- The statement `if len(buff) > 0` followed by `sanitizeCmdToken`, as it occurs
twice in the loop of `sanitizeCmdLine`: the buffer is sanitized, appended and
emptied. The error is only logged. -/
def sanitizer.sanitizeCmdLine.flush (lib : Lib) (s : sanitizer) (v : CmdLineVars) :
    CmdLineVars :=
  if (utf8 v.buff).length > 0 then
    { v with sanCmdLine := v.sanCmdLine ++ (s.sanitizeCmdToken lib v.buff).1, buff := "" }
  else v

/-- The body of the loop of `sanitizeCmdLine` for one rune `r`. -/
def sanitizer.sanitizeCmdLine.body (lib : Lib) (s : sanitizer) (v : CmdLineVars) (r : Char) :
    CmdLineVars :=
  let v1 :=
    if v.optionDetected then
      if lib.IsSpace r || ContainsRune optionEndingChars r then
        let v := { v with optionDetected := false }
        let v :=
          if (utf8 v.buff).length > 0 then
            { v with sanCmdLine := v.sanCmdLine ++ utf8 v.buff, buff := "" }
          else v
        { v with sanCmdLine := v.sanCmdLine ++ utf8 (String.singleton r) }
      else if lib.IsLetter r == false && lib.IsDigit r == false &&
          ContainsRune optionAllowedChars r == false then
        let v := sanitizer.sanitizeCmdLine.flush lib s v
        { v with sanCmdLine := v.sanCmdLine ++ utf8 (String.singleton r) }
      else
        { v with buff := v.buff ++ String.singleton r }
    else
      if lib.IsLetter r == false && lib.IsDigit r == false then
        let v := sanitizer.sanitizeCmdLine.flush lib s v
        { v with sanCmdLine := v.sanCmdLine ++ utf8 (String.singleton r) }
      else
        let v :=
          if (lib.IsSpace v.prevR2 && v.prevR == '-') ||
              (lib.IsSpace v.prevR3 && v.prevR2 == '-' && v.prevR == '-') then
            { v with optionDetected := true }
          else v
        { v with buff := v.buff ++ String.singleton r }
  { v1 with prevR3 := v.prevR2, prevR2 := v.prevR, prevR := r }

/-- The variables of `sanitizeCmdLine` before the loop. -/
def sanitizer.sanitizeCmdLine.init : CmdLineVars :=
  { sanCmdLine := [], buff := "", optionDetected := false,
    prevR3 := ' ', prevR2 := ' ', prevR := ' ' }

/-- The statements of `sanitizeCmdLine` after the loop. -/
def sanitizer.sanitizeCmdLine.finish (lib : Lib) (s : sanitizer) (v : CmdLineVars) :
    List UInt8 × Option String :=
  if (utf8 v.buff).length ≤ 0 then (v.sanCmdLine, none)
  else if v.optionDetected then (v.sanCmdLine ++ utf8 v.buff, none)
  else (v.sanCmdLine ++ (s.sanitizeCmdToken lib v.buff).1, none)

/-- The method `sanitizer.sanitizeCmdLine`: the sanitized command line and the
error, which is always `nil`. -/
def sanitizer.sanitizeCmdLine (lib : Lib) (s : sanitizer) (cmdLine : String) :
    List UInt8 × Option String :=
  sanitizer.sanitizeCmdLine.finish lib s
    (cmdLine.data.foldl (sanitizer.sanitizeCmdLine.body lib s) sanitizer.sanitizeCmdLine.init)

/-- The facts about the Unicode classes that the treatment of options relies on:
the blank is white space and neither letter nor digit, the hyphen is neither letter
nor digit, and no letter, digit, hyphen or underscore is white space or one of the
`optionEndingChars`. -/
def Lib.Sane (lib : Lib) : Prop :=
  lib.IsSpace ' ' = true ∧ lib.IsLetter ' ' = false ∧ lib.IsDigit ' ' = false ∧
  lib.IsLetter '-' = false ∧ lib.IsDigit '-' = false ∧
  (∀ c, lib.IsLetter c = true ∨ lib.IsDigit c = true ∨ c = '-' ∨ c = '_' →
    lib.IsSpace c = false ∧ ContainsRune optionEndingChars c = false)

/-- A library for the examples: ASCII and Latin-1 letters, ASCII digits and white
space, ASCII lower-casing, and a stand-in digest of twenty zero bytes (no example
depends on the value of a digest). -/
def demoLib : Lib :=
  { IsLetter := fun c =>
      c.isAlpha || (0xC0 ≤ c.toNat && c.toNat ≤ 0xFF && c.toNat != 0xD7 && c.toNat != 0xF7),
    IsDigit := Char.isDigit,
    IsSpace := Char.isWhitespace,
    ToLower := fun bs => bs.map (fun b => if 65 ≤ b.toNat ∧ b.toNat ≤ 90 then b + 32 else b),
    Sum := fun _ => List.replicate 20 0 }

/-- A sanitizer for the examples: hashes trimmed to 12 characters, the whitelist
holding `ls` and `usr`. -/
def demoSanitizer : sanitizer :=
  { hashLength := 12, whitelist := fun k => k == utf8 "ls" || k == utf8 "usr" }

/-- The example library with the digest function replaced by `Sum`. -/
def demoLibWith (Sum : List UInt8 → List UInt8) : Lib :=
  { demoLib with Sum := Sum }

/-- A sanitizer with an empty whitelist. -/
def noWhitelist (hashLength : Int) : sanitizer :=
  { hashLength := hashLength, whitelist := fun _ => false }

/-- What `sanitizePath` does to one component of the path. -/
def sanitizer.sanitizePath.component (lib : Lib) (s : sanitizer) (token : List UInt8) :
    List UInt8 :=
  if s.whitelist token = true then token else s.hashToken lib token

/-! ## Runs of the merge store -/

/-- One step of the merge store: the writer receives a value, the session GC
receives a session, or a started goroutine runs. -/
inductive Event where
  | writer (sel : Select)
  | sessionGC (session : String)
  | goroutine (g : Goroutine)

/-- The effect of one event. -/
def Event.run (env : Env) : Event → World → World
  | Event.writer sel, w => writerBody env sel w
  | Event.sessionGC session, w => sessionGCBody session w
  | Event.goroutine g, w => Goroutine.run env g w

/-- The effect of a sequence of events, in order; a panic ends the program. -/
def runEvents (env : Env) : List Event → World → World
  | [], w => w
  | e :: rest, w =>
    let w1 := Event.run env e w
    if w1.panicked.isSome then w1 else runEvents env rest w1

/-- The session-table invariant: every entry is a first half stored under its own
merge key. -/
def SessionsOK (sessions : GoMap Record) : Prop :=
  ∀ e ∈ sessions, e.2.PartOne = true ∧ e.1 = e.2.SessionID ++ "_" ++ Itoa e.2.Shlvl

/-- The number a decimal numeral denotes; it inverts `Nat.repr` and serves to show
that `Itoa` is injective. -/
def decimalValue (ds : List Char) : Nat :=
  ds.foldl (fun acc c => acc * 10 + (c.toNat - 48)) 0

/-! ## Lemmas on maps -/

theorem GoMap.delete_cons_eq {V : Type} (k : String) (v : V) (rest : GoMap V) :
    GoMap.delete ((k, v) :: rest) k = GoMap.delete rest k := by
  simp [GoMap.delete]

theorem GoMap.delete_cons_ne {V : Type} (k1 k : String) (v : V) (rest : GoMap V)
    (hk : k1 ≠ k) :
    GoMap.delete ((k1, v) :: rest) k = (k1, v) :: GoMap.delete rest k := by
  simp [GoMap.delete, hk]

theorem GoMap.get?_delete_self {V : Type} (m : GoMap V) (k : String) :
    (GoMap.delete m k).get? k = none := by
  induction m with
  | nil => rfl
  | cons e rest ih =>
    obtain ⟨k1, v⟩ := e
    by_cases hk : k1 = k
    · subst hk
      rw [GoMap.delete_cons_eq]
      exact ih
    · rw [GoMap.delete_cons_ne k1 k v rest hk]
      simp only [GoMap.get?, if_neg hk]
      exact ih

theorem GoMap.get?_delete_ne {V : Type} (m : GoMap V) (k k2 : String) (hne : k2 ≠ k) :
    (GoMap.delete m k).get? k2 = m.get? k2 := by
  induction m with
  | nil => rfl
  | cons e rest ih =>
    obtain ⟨k1, v⟩ := e
    by_cases hk : k1 = k
    · subst hk
      rw [GoMap.delete_cons_eq]
      simp only [GoMap.get?, if_neg (Ne.symm hne)]
      exact ih
    · rw [GoMap.delete_cons_ne k1 k v rest hk]
      by_cases h2 : k1 = k2
      · simp only [GoMap.get?, if_pos h2]
      · simp only [GoMap.get?, if_neg h2]
        exact ih

theorem GoMap.get?_set_self {V : Type} (m : GoMap V) (k : String) (v : V) :
    (GoMap.set m k v).get? k = some v := by
  simp [GoMap.set, GoMap.get?]

theorem GoMap.get?_set_ne {V : Type} (m : GoMap V) (k k2 : String) (v : V) (hne : k2 ≠ k) :
    (GoMap.set m k v).get? k2 = m.get? k2 := by
  have h : k ≠ k2 := fun h => hne h.symm
  simp [GoMap.set, GoMap.get?, h, GoMap.get?_delete_ne m k k2 hne]

theorem GoMap.mem_of_get? {V : Type} (m : GoMap V) (k : String) (v : V)
    (h : m.get? k = some v) : (k, v) ∈ m := by
  induction m with
  | nil => simp [GoMap.get?] at h
  | cons e rest ih =>
    obtain ⟨k1, v1⟩ := e
    by_cases hk : k1 = k
    · simp [GoMap.get?, hk] at h
      simp [hk, h]
    · simp [GoMap.get?, hk] at h
      exact List.mem_cons_of_mem _ (ih h)

theorem GoMap.delete_delete {V : Type} (m : GoMap V) (k : String) :
    GoMap.delete (GoMap.delete m k) k = GoMap.delete m k := by
  simp [GoMap.delete, List.filter_filter]

theorem GoMap.count_key_delete {V : Type} (m : GoMap V) (k : String) :
    ((GoMap.delete m k).map Prod.fst).count k = 0 := by
  rw [List.count_eq_zero]
  intro hmem
  obtain ⟨e, he, hk⟩ := List.mem_map.mp hmem
  simp [GoMap.delete, List.mem_filter] at he
  exact he.2 hk

/-! ## Lemmas on the index update -/

theorem length_take_append_drop (l : List String) (idx : Nat)
    (h : idx + 1 ≤ l.length) :
    (l.take idx ++ l.drop (idx + 1)).length + 1 = l.length := by
  simp only [List.length_append, List.length_take, List.length_drop]
  omega

theorem Histlist.touch_of_inRange (c : String) (hl : Histlist) (h : hl.InRange) :
    ∃ hl2, Histlist.touch c hl = Except.ok hl2 ∧ hl2.InRange ∧
      hl2.List.getLast? = some c ∧
      hl2.LastIndex.get? c = some (hl2.List.length - 1) := by
  unfold Histlist.touch
  cases hg : hl.LastIndex.get? c with
  | none =>
    refine ⟨_, rfl, ?_, ?_, ?_⟩
    · intro e he
      simp only [GoMap.set, List.mem_cons] at he
      rcases he with he | he
      · subst he
        simp
      · have := h e (List.mem_of_mem_filter he)
        simp only [List.length_append, List.length_singleton]
        omega
    · simp
    · simp [GoMap.get?_set_self]
  | some idx =>
    have hlt : idx < hl.List.length := h (c, idx) (GoMap.mem_of_get? _ _ _ hg)
    have hle : idx + 1 ≤ hl.List.length := hlt
    have hlen := length_take_append_drop hl.List idx hle
    simp only [if_pos hle]
    refine ⟨_, rfl, ?_, ?_, ?_⟩
    · intro e he
      simp only [GoMap.set, List.mem_cons] at he
      rcases he with he | he
      · subst he
        simp
      · have := h e (List.mem_of_mem_filter he)
        simp only [List.length_append, List.length_singleton] at hlen ⊢
        omega
    · simp
    · simp [GoMap.get?_set_self]

theorem publish_of_inRange (r : Record) (w : World) (h : w.h.cmdLines.InRange) :
    ∃ hl2, Histlist.touch r.CmdLine w.h.cmdLines = Except.ok hl2 ∧
      publish r w = { w with h := { w.h with recentRecords := w.h.recentRecords ++ [r],
                                              cmdLines := hl2 } } ∧
      hl2.InRange ∧ hl2.List.getLast? = some r.CmdLine := by
  obtain ⟨hl2, h1, h2, h3, _⟩ := Histlist.touch_of_inRange r.CmdLine w.h.cmdLines h
  refine ⟨hl2, h1, ?_, h2, h3⟩
  simp only [publish, h1]

theorem publishAll_inRange (rs : List Record) : ∀ (w : World), w.panicked = none →
    w.h.cmdLines.InRange →
    (publishAll rs w).panicked = none ∧ (publishAll rs w).h.cmdLines.InRange := by
  induction rs with
  | nil =>
    intro w hnp hin
    exact ⟨hnp, hin⟩
  | cons r rest ih =>
    intro w hnp hin
    obtain ⟨hl2, _, b2, b3, _⟩ := publish_of_inRange r w hin
    have hp1 : (publish r w).panicked = none := by rw [b2]; exact hnp
    have hi1 : (publish r w).h.cmdLines.InRange := by rw [b2]; exact b3
    have hun : publishAll (r :: rest) w = publishAll rest (publish r w) := by
      simp only [publishAll, hp1, Option.isSome_none, Bool.false_eq_true, if_false]
    rw [hun]
    exact ih (publish r w) hp1 hi1

/-! ## The writer step, case by case -/

theorem writerBody_partOne (env : Env) (r : Record) (w : World) (hp : r.PartOne = true) :
    writerBody env (Select.input r) w =
      { w with
        h := { w.h with sessions := w.h.sessions.set (mergeID r) r },
        log := w.log ++
          (if (w.h.sessions.get? (mergeID r)).isSome then
            [overwriteWarning]
           else []) } := by
  simp only [writerBody, hp, if_true]
  split <;> simp [logPrintln]

theorem writerBody_partTwo_none (env : Env) (r : Record) (w : World)
    (hq : r.PartOne = false) (hn : w.h.sessions.get? (mergeID r) = none) :
    writerBody env (Select.input r) w =
      logPrintln ("histfile ERROR: Got second part of records and nothing to merge it with - ignoring! (mergeID: " ++ mergeID r ++ " )") w := by
  simp only [writerBody, hq, Bool.false_eq_true, if_false, hn]

theorem writerBody_partTwo_some (env : Env) (r part1 : Record) (w : World)
    (hq : r.PartOne = false) (hs : w.h.sessions.get? (mergeID r) = some part1) :
    writerBody env (Select.input r) w =
      go (Goroutine.mergeAndWriteRecord part1 r)
        { w with h := { w.h with sessions := w.h.sessions.delete (mergeID r) } } := by
  simp only [writerBody, hq, Bool.false_eq_true, if_false, hs]

/-! ## The writer on a pair of halves -/

/-- Claim C1. A first half `p` and then a second half `q` of the same session and
shell level, whose merge succeeds with `m`: the two writer steps start exactly one
merge goroutine, for `p` and `q`, write and publish nothing themselves and leave no
entry under the merge key; the goroutine appends `m` once to the recent records and
once to the history file, and the index ends with the command line of `p`. -/
theorem writer_pair_one_merged_record (env : Env) (w : World) (p q m : Record)
    (hp : p.PartOne = true) (hq : q.PartOne = false)
    (hs : q.SessionID = p.SessionID) (hl : q.Shlvl = p.Shlvl)
    (hm : env.Merge p q = Except.ok m) (hc : m.CmdLine = p.CmdLine)
    (hio : env.io m w.h.historyPath = IOResult.ok)
    (hin : w.h.cmdLines.InRange) (hnp : w.panicked = none) :
    let w2 := writer env [Select.input p, Select.input q] w
    let w3 := Goroutine.run env (Goroutine.mergeAndWriteRecord p q) w2
    (w2.spawned = w.spawned ++ [Goroutine.mergeAndWriteRecord p q] ∧
      w2.h.sessions.get? (p.SessionID ++ "_" ++ Itoa p.Shlvl) = none ∧
      w2.h.recentRecords = w.h.recentRecords ∧ w2.h.cmdLines = w.h.cmdLines ∧
      w2.disk = w.disk ∧ w2.panicked = none) ∧
    (w3.h.recentRecords = w.h.recentRecords ++ [m] ∧
      w3.disk = w.disk ++ [(w.h.historyPath, m)] ∧
      w3.h.cmdLines.List.getLast? = some p.CmdLine ∧
      w3.h.cmdLines.List.count p.CmdLine ≥ 1 ∧
      w3.spawned = w2.spawned ∧
      w3.h.sessions.get? (p.SessionID ++ "_" ++ Itoa p.Shlvl) = none ∧
      w3.panicked = none) := by
  have hid : mergeID q = mergeID p := by simp [mergeID, hs, hl]
  have hw2 : writer env [Select.input p, Select.input q] w =
      go (Goroutine.mergeAndWriteRecord p q)
        { writerBody env (Select.input p) w with
          h := { (writerBody env (Select.input p) w).h with
                 sessions := (w.h.sessions.set (mergeID p) p).delete (mergeID p) } } := by
    have e1 := writerBody_partOne env p w hp
    have e0 : (writerBody env (Select.input p) w).h.sessions = w.h.sessions.set (mergeID p) p := by
      rw [e1]
    have e2 : (writerBody env (Select.input p) w).h.sessions.get? (mergeID q) = some p := by
      rw [e0, hid]
      exact GoMap.get?_set_self _ _ _
    have e3 := writerBody_partTwo_some env q p (writerBody env (Select.input p) w) hq e2
    have e4 : (writerBody env (Select.input p) w).panicked = none := by rw [e1]; exact hnp
    have e5 : (writerBody env (Select.input q) (writerBody env (Select.input p) w)).panicked
        = none := by rw [e3]; exact e4
    simp only [writer, e4, e5, Option.isSome_none, Bool.false_eq_true, if_false]
    rw [e3, e0, hid]
    simp only [e4]
  have hw2a : ∀ x, x = writer env [Select.input p, Select.input q] w →
      x.h.recentRecords = w.h.recentRecords ∧ x.h.cmdLines = w.h.cmdLines ∧
      x.disk = w.disk ∧ x.panicked = none ∧ x.h.historyPath = w.h.historyPath ∧
      x.spawned = w.spawned ++ [Goroutine.mergeAndWriteRecord p q] ∧
      x.h.sessions = (w.h.sessions.set (mergeID p) p).delete (mergeID p) := by
    intro x hx
    rw [hx, hw2, writerBody_partOne env p w hp]
    simp [go, hnp]
  intro w2 w3
  have hw2a := hw2a w2 rfl
  obtain ⟨a1, a2, a3, a4, a5, a6, a7⟩ := hw2a
  have hin2 : w2.h.cmdLines.InRange := by rw [a2]; exact hin
  obtain ⟨hl2, _, b2, _, b4⟩ := publish_of_inRange m w2 hin2
  have hw3 : w3 = writeRecord env m w2.h.historyPath (publish m w2) := by
    show mergeAndWriteRecord env p q w2 = _
    simp only [mergeAndWriteRecord, hm]
    rw [b2]
    simp [a4]
  have hio2 : env.io m w2.h.historyPath = IOResult.ok := by rw [a5]; exact hio
  have hw3b : w3 = { publish m w2 with disk := (publish m w2).disk ++ [(w2.h.historyPath, m)] } := by
    rw [hw3]
    simp only [writeRecord, hio2]
  refine ⟨⟨a6, ?_, a1, a2, a3, a4⟩, ?_⟩
  · rw [a7]
    exact GoMap.get?_delete_self _ _
  · rw [hw3b, b2]
    refine ⟨by simp [a1], by simp [a3, a5], by simpa [hc] using b4, ?_, rfl, ?_, by simp [a4]⟩
    · have : p.CmdLine ∈ hl2.List := by
        have := List.mem_of_getLast?_eq_some (by simpa [hc] using b4 : hl2.List.getLast? = some p.CmdLine)
        exact this
      exact List.count_pos_iff.mpr this
    · show w2.h.sessions.get? _ = none
      rw [a7]
      exact GoMap.get?_delete_self _ _

/-- Witness for claim C1: the example `ls -la` submitted to a fresh `Histfile`. -/
theorem writer_pair_one_merged_record_witness :
    preLs.PartOne = true ∧ postLs.PartOne = false ∧
    demoEnv.Merge preLs postLs = Except.ok mergedLs ∧
    (Histlist.New).InRange ∧
    (Goroutine.run demoEnv (Goroutine.mergeAndWriteRecord preLs postLs)
      (writer demoEnv [Select.input preLs, Select.input postLs] (New "hist"))).disk
        = [("hist", mergedLs)] :=
  ⟨rfl, rfl, rfl, by decide,
    (writer_pair_one_merged_record demoEnv (New "hist") preLs postLs mergedLs
      rfl rfl rfl rfl rfl rfl rfl (by decide) rfl).2.2.1⟩

/-- The example of the specification, evaluated: after the two halves and the merge
the history file holds the merged record once and the index is `["ls -la"]`. -/
theorem scenario_ls_la :
    (Goroutine.run demoEnv (Goroutine.mergeAndWriteRecord preLs postLs)
      (writer demoEnv [Select.input preLs, Select.input postLs] (New "hist")))
      = { h := { sessions := [], historyPath := "hist", recentRecords := [mergedLs],
                 cmdLines := { LastIndex := [("ls -la", 0)], List := ["ls -la"] } },
          disk := [("hist", mergedLs)],
          spawned := [Goroutine.mergeAndWriteRecord preLs postLs],
          shutdownDone := [], log := [], panicked := none } := by
  decide

/-! ## The recency index -/

/-- Claim C2 (evaluation at the failing input). From the empty index, the command
lines `a`, `b`, `a`, `b` published in this order leave the sequence `["b", "b"]`:
the second `a` moves `b` to position 0 while `LastIndex` keeps 1 for it, so the
second `b` removes nothing and is appended next to the `b` still there. -/
theorem publish_repeat_leaves_duplicate :
    (publishAll [cmd "a", cmd "b", cmd "a"] (New "hist")).h.cmdLines
      = { LastIndex := [("a", 1), ("b", 1)], List := ["b", "a"] } ∧
    (publishAll [cmd "a", cmd "b", cmd "a", cmd "b"] (New "hist")).h.cmdLines.List
      = ["b", "b"] ∧
    ¬ (publishAll [cmd "a", cmd "b", cmd "a", cmd "b"] (New "hist")).h.cmdLines.List.Nodup ∧
    (publishAll [cmd "a", cmd "b", cmd "a", cmd "b"] (New "hist")).panicked = none := by
  decide

theorem publish_fresh (r : Record) (w : World)
    (h : w.h.cmdLines.LastIndex.get? r.CmdLine = none) :
    publish r w =
      { w with h := { w.h with
          recentRecords := w.h.recentRecords ++ [r],
          cmdLines := { LastIndex := w.h.cmdLines.LastIndex.set r.CmdLine w.h.cmdLines.List.length,
                        List := w.h.cmdLines.List ++ [r.CmdLine] } } } := by
  simp only [publish, Histlist.touch, h]

theorem publishAll_fresh (rs : List Record) : ∀ (w : World), w.panicked = none →
    (∀ r ∈ rs, w.h.cmdLines.LastIndex.get? r.CmdLine = none) →
    (rs.map Record.CmdLine).Nodup →
    (publishAll rs w).panicked = none ∧
    (publishAll rs w).h.cmdLines.List = w.h.cmdLines.List ++ rs.map Record.CmdLine ∧
    (∀ c, c ∉ rs.map Record.CmdLine →
      (publishAll rs w).h.cmdLines.LastIndex.get? c = w.h.cmdLines.LastIndex.get? c) := by
  induction rs with
  | nil =>
    intro w hnp _ _
    simp [publishAll, hnp]
  | cons r rest ih =>
    intro w hnp hfresh hnd
    have hr := publish_fresh r w (hfresh r (List.mem_cons_self _ _))
    have hp1 : (publish r w).panicked = none := by rw [hr]; exact hnp
    rw [List.map_cons, List.nodup_cons] at hnd
    have hfresh1 : ∀ r2 ∈ rest, (publish r w).h.cmdLines.LastIndex.get? r2.CmdLine = none := by
      intro r2 hr2
      have hne : r2.CmdLine ≠ r.CmdLine := by
        intro heq
        exact hnd.1 (heq ▸ List.mem_map_of_mem Record.CmdLine hr2)
      rw [hr]
      show (GoMap.set _ _ _).get? _ = none
      rw [GoMap.get?_set_ne _ _ _ _ hne]
      exact hfresh r2 (List.mem_cons_of_mem _ hr2)
    obtain ⟨i1, i2, i3⟩ := ih (publish r w) hp1 hfresh1 hnd.2
    have hun : publishAll (r :: rest) w = publishAll rest (publish r w) := by
      simp only [publishAll, hp1, Option.isSome_none, Bool.false_eq_true, if_false]
    rw [hun]
    refine ⟨i1, ?_, ?_⟩
    · rw [i2, hr]
      simp
    · intro c hc
      rw [List.map_cons, List.mem_cons, not_or] at hc
      rw [i3 c hc.2, hr]
      show (GoMap.set _ _ _).get? _ = _
      exact GoMap.get?_set_ne _ _ _ _ hc.1

/-- Claim C3. From the empty index, records with pairwise distinct command lines
`c1, ..., cN` (`N ≥ 1`) published in order give the sequence `[c1, ..., cN]`, and one
more record with command line `c1` then gives `[c2, ..., cN, c1]`; nothing panics. -/
theorem publish_distinct_then_first_again (path : String) (r : Record) (rs : List Record)
    (r1 : Record) (hd : ((r :: rs).map Record.CmdLine).Nodup)
    (h1 : r1.CmdLine = r.CmdLine) :
    (publishAll (r :: rs) (New path)).h.cmdLines.List = (r :: rs).map Record.CmdLine ∧
    (publishAll (r :: rs) (New path)).panicked = none ∧
    (publish r1 (publishAll (r :: rs) (New path))).h.cmdLines.List
      = rs.map Record.CmdLine ++ [r.CmdLine] ∧
    (publish r1 (publishAll (r :: rs) (New path))).panicked = none := by
  have hr : publish r (New path) =
      { New path with h := { (New path).h with
          recentRecords := [r],
          cmdLines := { LastIndex := [(r.CmdLine, 0)], List := [r.CmdLine] } } } := by
    rw [publish_fresh r (New path) rfl]
    rfl
  have hp1 : (publish r (New path)).panicked = none := by rw [hr]; rfl
  have hun : publishAll (r :: rs) (New path) = publishAll rs (publish r (New path)) := by
    simp only [publishAll, hp1, Option.isSome_none, Bool.false_eq_true, if_false]
  rw [List.map_cons, List.nodup_cons] at hd
  have hfresh : ∀ r2 ∈ rs, (publish r (New path)).h.cmdLines.LastIndex.get? r2.CmdLine = none := by
    intro r2 hr2
    have hne : r.CmdLine ≠ r2.CmdLine := by
      intro heq
      exact hd.1 (heq ▸ List.mem_map_of_mem Record.CmdLine hr2)
    rw [hr]
    simp [GoMap.get?, hne]
  obtain ⟨i1, i2, i3⟩ := publishAll_fresh rs (publish r (New path)) hp1 hfresh hd.2
  have hlist : (publishAll (r :: rs) (New path)).h.cmdLines.List
      = r.CmdLine :: rs.map Record.CmdLine := by
    rw [hun, i2, hr]
    rfl
  have hidx : (publishAll (r :: rs) (New path)).h.cmdLines.LastIndex.get? r1.CmdLine
      = some 0 := by
    rw [hun, h1, i3 r.CmdLine hd.1, hr]
    simp [GoMap.get?]
  have hpan : (publishAll (r :: rs) (New path)).panicked = none := by rw [hun]; exact i1
  refine ⟨by rw [hlist, List.map_cons], hpan, ?_, ?_⟩
  · rw [h1] at hidx
    simp [publish, Histlist.touch, hidx, hlist, h1]
  · rw [h1] at hidx
    simp [publish, Histlist.touch, hidx, hlist, hpan, h1]

/-- Witness for claim C3: `ls`, `cd`, `pwd` and then `ls` again. -/
theorem publish_distinct_then_first_again_witness :
    ((cmd "ls" :: [cmd "cd", cmd "pwd"]).map Record.CmdLine).Nodup ∧
    (publishAll (cmd "ls" :: [cmd "cd", cmd "pwd"]) (New "hist")).h.cmdLines.List
      = ["ls", "cd", "pwd"] ∧
    (publish (cmd "ls") (publishAll (cmd "ls" :: [cmd "cd", cmd "pwd"])
      (New "hist"))).h.cmdLines.List = ["cd", "pwd", "ls"] :=
  ⟨by decide,
    (publish_distinct_then_first_again "hist" (cmd "ls") [cmd "cd", cmd "pwd"] (cmd "ls")
      (by decide) rfl).1,
    (publish_distinct_then_first_again "hist" (cmd "ls") [cmd "cd", cmd "pwd"] (cmd "ls")
      (by decide) rfl).2.2.1⟩

/-- Claim C7 (evaluation at the failing input). From the empty index, after `a`,
`b`, `a` the sequence is `["b", "a"]` while `LastIndex` still maps `b` to 1, the
position of `a`: the indices of the elements shifted by the removal are not updated. -/
theorem publish_leaves_stale_index :
    (publishAll [cmd "a", cmd "b", cmd "a"] (New "hist")).h.cmdLines.List = ["b", "a"] ∧
    (publishAll [cmd "a", cmd "b", cmd "a"] (New "hist")).h.cmdLines.LastIndex.get? "b"
      = some 1 ∧
    (publishAll [cmd "a", cmd "b", cmd "a"] (New "hist")).h.cmdLines.List[1]? = some "a" ∧
    (publishAll [cmd "a", cmd "b", cmd "a"] (New "hist")).h.cmdLines.List.indexOf "b" = 0 := by
  decide

/-! ## The shutdown case of the writer -/

/-- With at least one entry in the session table, the shutdown case panics in the
first iteration of its loop, at `log.Panicln`: no line is written to the history
file, nothing is sent on `shutdownDone`, and the session table still holds every
entry. -/
theorem shutdown_with_pending_panics (env : Env) (sig : String) (w : World)
    (e : String × Record) (rest : GoMap Record) :
    (writerBody env (Select.signals sig)
        { w with h := { w.h with sessions := e :: rest } }).panicked
      = some ("histfile WARN: Writing incomplete record for session " ++ e.1) ∧
    (writerBody env (Select.signals sig)
        { w with h := { w.h with sessions := e :: rest } }).disk = w.disk ∧
    (writerBody env (Select.signals sig)
        { w with h := { w.h with sessions := e :: rest } }).shutdownDone = w.shutdownDone ∧
    (writerBody env (Select.signals sig)
        { w with h := { w.h with sessions := e :: rest } }).spawned = w.spawned ∧
    (writerBody env (Select.signals sig)
        { w with h := { w.h with sessions := e :: rest } }).h.sessions = e :: rest := by
  obtain ⟨sessID, record⟩ := e
  simp [writerBody, shutdownRange, logPanicln, logPrintln]

/-- Claim C4 (evaluation at the failing input). Two first halves are pending, for
`s1_1` and `s2_1`, and the shutdown signal arrives: the step ends in the panic of
`log.Panicln`, the history file has no line, `shutdownDone` has received nothing and
both entries are still in the session table. -/
theorem shutdown_two_pending_evaluated :
    (writer demoEnv [Select.input preLs, Select.input preS2] (New "hist")).h.sessions
      = [("s2_1", preS2), ("s1_1", preLs)] ∧
    (writer demoEnv [Select.input preLs, Select.input preS2, Select.signals "terminated"]
      (New "hist")).panicked
      = some "histfile WARN: Writing incomplete record for session s2_1" ∧
    (writer demoEnv [Select.input preLs, Select.input preS2, Select.signals "terminated"]
      (New "hist")).disk = [] ∧
    (writer demoEnv [Select.input preLs, Select.input preS2, Select.signals "terminated"]
      (New "hist")).shutdownDone = [] ∧
    (writer demoEnv [Select.input preLs, Select.input preS2, Select.signals "terminated"]
      (New "hist")).h.sessions = [("s2_1", preS2), ("s1_1", preLs)] := by
  decide

/-- The shutdown case on an empty session table: nothing to write, the token is sent. -/
theorem shutdown_empty_table (env : Env) (sig : String) (w : World)
    (he : w.h.sessions = []) (hnp : w.panicked = none) :
    (writerBody env (Select.signals sig) w).shutdownDone = w.shutdownDone ++ ["histfile"] ∧
    (writerBody env (Select.signals sig) w).h = w.h ∧
    (writerBody env (Select.signals sig) w).disk = w.disk ∧
    (writerBody env (Select.signals sig) w).panicked = none := by
  simp [writerBody, shutdownRange, logPrintln, he, hnp]

/-- Claim C8 (evaluation at the failing input). After the shutdown case has run on
an empty table and sent its token, the loop of `writer` goes on: a first half that
arrives next is stored in the session table, and its second half starts a merge. -/
theorem writer_accepts_after_shutdown :
    (writer demoEnv [Select.signals "terminated"] (New "hist")).shutdownDone = ["histfile"] ∧
    (writer demoEnv [Select.signals "terminated"] (New "hist")).h.sessions = [] ∧
    (writer demoEnv [Select.signals "terminated", Select.input preLs] (New "hist")).h.sessions
      = [("s1_1", preLs)] ∧
    (writer demoEnv [Select.signals "terminated", Select.input preLs, Select.input postLs]
      (New "hist")).spawned = [Goroutine.mergeAndWriteRecord preLs postLs] := by
  decide

/-! ## Protocol violations in the writer -/

/-- Claim C5. A second half whose merge key has no entry in the session table:
the writer step changes nothing in the `Histfile` (session table, recent records,
index), starts no goroutine, writes nothing, sends nothing and does not panic; it
only logs one line. -/
theorem writer_second_half_without_first (env : Env) (w : World) (q : Record)
    (hq : q.PartOne = false)
    (hn : w.h.sessions.get? (q.SessionID ++ "_" ++ Itoa q.Shlvl) = none) :
    (writerBody env (Select.input q) w).h = w.h ∧
    (writerBody env (Select.input q) w).spawned = w.spawned ∧
    (writerBody env (Select.input q) w).disk = w.disk ∧
    (writerBody env (Select.input q) w).shutdownDone = w.shutdownDone ∧
    (writerBody env (Select.input q) w).panicked = w.panicked ∧
    (writerBody env (Select.input q) w).log.length = w.log.length + 1 := by
  rw [writerBody_partTwo_none env q w hq hn]
  simp [logPrintln]

/-- Witness for claim C5: the second half of the example sent to a fresh `Histfile`. -/
theorem writer_second_half_without_first_witness :
    postLs.PartOne = false ∧
    (New "hist").h.sessions.get? (postLs.SessionID ++ "_" ++ Itoa postLs.Shlvl) = none ∧
    (writerBody demoEnv (Select.input postLs) (New "hist")).h = (New "hist").h ∧
    (writerBody demoEnv (Select.input postLs) (New "hist")).spawned = [] :=
  ⟨rfl, rfl,
    (writer_second_half_without_first demoEnv (New "hist") postLs rfl rfl).1,
    (writer_second_half_without_first demoEnv (New "hist") postLs rfl rfl).2.1⟩

/-- Claim C6. Two first halves `p1`, `p2` with the same merge key, one after the
other: the session table then has exactly one entry under that key, it is `p2`,
every other key reads as before, and the table is the one that `p2` alone would
have produced; the two steps start no goroutine, write nothing to the history file
and publish nothing, so `p1` is gone without having been written. -/
theorem writer_first_half_twice (env : Env) (w : World) (p1 p2 : Record)
    (h1 : p1.PartOne = true) (h2 : p2.PartOne = true)
    (hid : mergeID p2 = mergeID p1) (hnp : w.panicked = none) :
    (writer env [Select.input p1, Select.input p2] w).h.sessions.get? (mergeID p1)
      = some p2 ∧
    ((writer env [Select.input p1, Select.input p2] w).h.sessions.map Prod.fst).count
      (mergeID p1) = 1 ∧
    (∀ k, k ≠ mergeID p1 →
      (writer env [Select.input p1, Select.input p2] w).h.sessions.get? k
        = w.h.sessions.get? k) ∧
    (writer env [Select.input p1, Select.input p2] w).h.sessions
      = (writerBody env (Select.input p2) w).h.sessions ∧
    (writer env [Select.input p1, Select.input p2] w).spawned = w.spawned ∧
    (writer env [Select.input p1, Select.input p2] w).disk = w.disk ∧
    (writer env [Select.input p1, Select.input p2] w).h.recentRecords = w.h.recentRecords ∧
    (writer env [Select.input p1, Select.input p2] w).h.cmdLines = w.h.cmdLines ∧
    (writer env [Select.input p1, Select.input p2] w).panicked = none := by
  have e1 := writerBody_partOne env p1 w h1
  have e2 := writerBody_partOne env p2 (writerBody env (Select.input p1) w) h2
  have e4 : (writerBody env (Select.input p1) w).panicked = none := by rw [e1]; exact hnp
  have e5 : (writerBody env (Select.input p2) (writerBody env (Select.input p1) w)).panicked
      = none := by rw [e2]; exact e4
  have hw : writer env [Select.input p1, Select.input p2] w
      = writerBody env (Select.input p2) (writerBody env (Select.input p1) w) := by
    simp only [writer, e4, e5, Option.isSome_none, Bool.false_eq_true, if_false]
  have hs : (writer env [Select.input p1, Select.input p2] w).h.sessions
      = (mergeID p1, p2) :: w.h.sessions.delete (mergeID p1) := by
    rw [hw, e2, e1, hid]
    show GoMap.set (GoMap.set _ _ _) _ _ = _
    simp only [GoMap.set, GoMap.delete_cons_eq, GoMap.delete_delete]
  have hs2 : (writerBody env (Select.input p2) w).h.sessions
      = (mergeID p1, p2) :: w.h.sessions.delete (mergeID p1) := by
    rw [writerBody_partOne env p2 w h2, hid]
    rfl
  refine ⟨?_, ?_, ?_, by rw [hs, hs2], ?_, ?_, ?_, ?_, by rw [hw]; exact e5⟩
  · rw [hs]
    simp [GoMap.get?]
  · rw [hs, List.map_cons, List.count_cons_self, GoMap.count_key_delete]
  · intro k hk
    rw [hs]
    simp only [GoMap.get?, if_neg (Ne.symm hk)]
    exact GoMap.get?_delete_ne _ _ _ hk
  · rw [hw, e2, e1]
  · rw [hw, e2, e1]
  · rw [hw, e2, e1]
  · rw [hw, e2, e1]

/-- Witness for claim C6: two first halves for the key `s1_1` sent to a fresh
`Histfile`; the table then holds the second one only. -/
theorem writer_first_half_twice_witness :
    preLs.PartOne = true ∧ preCd.PartOne = true ∧ mergeID preCd = mergeID preLs ∧
    (New "hist").panicked = none ∧
    (writer demoEnv [Select.input preLs, Select.input preCd] (New "hist")).h.sessions.get?
      (mergeID preLs) = some preCd ∧
    (writer demoEnv [Select.input preLs, Select.input preCd] (New "hist")).spawned = [] :=
  ⟨rfl, rfl, by decide, rfl,
    (writer_first_half_twice demoEnv (New "hist") preLs preCd rfl rfl (by decide) rfl).1,
    (writer_first_half_twice demoEnv (New "hist") preLs preCd rfl rfl (by decide) rfl).2.2.2.2.1⟩

/-! ## The session GC -/

theorem sessionGCBody_found (k : String) (r : Record) (w : World)
    (hf : w.h.sessions.get? k = some r) :
    sessionGCBody k w =
      { w with
        h := { w.h with sessions := w.h.sessions.delete k },
        spawned := w.spawned ++ [Goroutine.writeRecord r w.h.historyPath],
        log := w.log ++ ["histfile: got session to drop " ++ k,
                         "histfile: Dropping session: " ++ k] } := by
  have hf1 : (logPrintln ("histfile: got session to drop " ++ k) w).h.sessions.get? k
      = some r := hf
  simp only [sessionGCBody, hf1]
  simp [logPrintln, go]

/-- Claim C9. A key `k` received by the session GC under which the session table
holds `r`: the GC step leaves no entry under `k`, every other key reads as before
and no entry is added, it starts exactly one goroutine, `writeRecord` of `r` itself
to the history path, and touches neither the file, the recent records nor the
index; that goroutine, when its file operations succeed, appends the one line `r`. -/
theorem sessionGC_flushes_entry (env : Env) (w : World) (k : String) (r : Record)
    (hf : w.h.sessions.get? k = some r)
    (hio : env.io r w.h.historyPath = IOResult.ok) :
    (sessionGCBody k w).h.sessions.get? k = none ∧
    (∀ k2, k2 ≠ k → (sessionGCBody k w).h.sessions.get? k2 = w.h.sessions.get? k2) ∧
    (sessionGCBody k w).h.sessions.Sublist w.h.sessions ∧
    (sessionGCBody k w).spawned = w.spawned ++ [Goroutine.writeRecord r w.h.historyPath] ∧
    (sessionGCBody k w).disk = w.disk ∧
    (sessionGCBody k w).h.recentRecords = w.h.recentRecords ∧
    (sessionGCBody k w).h.cmdLines = w.h.cmdLines ∧
    (sessionGCBody k w).panicked = w.panicked ∧
    (Goroutine.run env (Goroutine.writeRecord r w.h.historyPath) (sessionGCBody k w)).disk
      = w.disk ++ [(w.h.historyPath, r)] ∧
    (Goroutine.run env (Goroutine.writeRecord r w.h.historyPath) (sessionGCBody k w)).h
      = (sessionGCBody k w).h := by
  rw [sessionGCBody_found k r w hf]
  refine ⟨GoMap.get?_delete_self _ _, fun k2 hk => GoMap.get?_delete_ne _ _ _ hk,
    List.filter_sublist _, rfl, rfl, rfl, rfl, rfl, ?_, ?_⟩
  · simp [Goroutine.run, writeRecord, hio]
  · simp [Goroutine.run, writeRecord, hio]

/-- Witness for claim C9: the pending first half of the example dropped by its key. -/
theorem sessionGC_flushes_entry_witness :
    (writerBody demoEnv (Select.input preLs) (New "hist")).h.sessions.get? "s1_1"
      = some preLs ∧
    demoEnv.io preLs "hist" = IOResult.ok ∧
    (sessionGCBody "s1_1" (writerBody demoEnv (Select.input preLs) (New "hist"))).spawned
      = [Goroutine.writeRecord preLs "hist"] ∧
    (Goroutine.run demoEnv (Goroutine.writeRecord preLs "hist")
      (sessionGCBody "s1_1" (writerBody demoEnv (Select.input preLs) (New "hist")))).disk
      = [("hist", preLs)] :=
  ⟨by decide, rfl,
    (sessionGC_flushes_entry demoEnv (writerBody demoEnv (Select.input preLs) (New "hist"))
      "s1_1" preLs (by decide) rfl).2.2.2.1,
    (sessionGC_flushes_entry demoEnv (writerBody demoEnv (Select.input preLs) (New "hist"))
      "s1_1" preLs (by decide) rfl).2.2.2.2.2.2.2.2.1⟩

/-- Claim C10. A key received by the session GC under which the session table has
no entry: the GC step leaves the `Histfile` as it is (session table included),
starts no goroutine, writes nothing, sends nothing and raises no panic; it logs the
two lines `got session to drop` and `No hanging parts for session`. -/
theorem sessionGC_without_entry (w : World) (k : String)
    (hn : w.h.sessions.get? k = none) :
    (sessionGCBody k w).h = w.h ∧
    (sessionGCBody k w).spawned = w.spawned ∧
    (sessionGCBody k w).disk = w.disk ∧
    (sessionGCBody k w).shutdownDone = w.shutdownDone ∧
    (sessionGCBody k w).panicked = w.panicked ∧
    (sessionGCBody k w).log = w.log ++ ["histfile: got session to drop " ++ k,
      "histfile: No hanging parts for session: " ++ k] := by
  have hn1 : (logPrintln ("histfile: got session to drop " ++ k) w).h.sessions.get? k
      = none := hn
  simp only [sessionGCBody, hn1]
  simp [logPrintln]

/-- Witness for claim C10: the bare session identifier `s1` received while the table
holds the example under `s1_1`. -/
theorem sessionGC_without_entry_witness :
    (writerBody demoEnv (Select.input preLs) (New "hist")).h.sessions.get? "s1" = none ∧
    (sessionGCBody "s1" (writerBody demoEnv (Select.input preLs) (New "hist"))).h.sessions
      = [("s1_1", preLs)] ∧
    (sessionGCBody "s1" (writerBody demoEnv (Select.input preLs) (New "hist"))).spawned
      = [] :=
  ⟨by decide,
    (congrArg Histfile.sessions
      (sessionGC_without_entry (writerBody demoEnv (Select.input preLs) (New "hist"))
        "s1" (by decide)).1).trans (by decide),
    (sessionGC_without_entry (writerBody demoEnv (Select.input preLs) (New "hist"))
      "s1" (by decide)).2.1⟩

/-! ## A failed merge -/

/-- Claim C11. When `part1.Merge(part2)` returns an error, `mergeAndWriteRecord`
leaves the `Histfile` as it is (recent records, index `List` and `LastIndex`, session
table), appends nothing to the history file, starts nothing and does not panic; it
logs the error. -/
theorem mergeAndWriteRecord_merge_error (env : Env) (w : World) (part1 part2 : Record)
    (err : String) (he : env.Merge part1 part2 = Except.error err) :
    (mergeAndWriteRecord env part1 part2 w).h = w.h ∧
    (mergeAndWriteRecord env part1 part2 w).disk = w.disk ∧
    (mergeAndWriteRecord env part1 part2 w).spawned = w.spawned ∧
    (mergeAndWriteRecord env part1 part2 w).shutdownDone = w.shutdownDone ∧
    (mergeAndWriteRecord env part1 part2 w).panicked = w.panicked ∧
    (mergeAndWriteRecord env part1 part2 w).log = w.log ++ ["Error while merging " ++ err] := by
  simp [mergeAndWriteRecord, he, logPrintln]

/-- Witness for claim C11: the two halves of the example handed over in the wrong
order, after `ls` was published. -/
theorem mergeAndWriteRecord_merge_error_witness :
    demoEnv.Merge postLs preLs = Except.error "Expected part1 and part2 of the same record" ∧
    (mergeAndWriteRecord demoEnv postLs preLs (publish (cmd "ls") (New "hist"))).h
      = (publish (cmd "ls") (New "hist")).h ∧
    (mergeAndWriteRecord demoEnv postLs preLs (publish (cmd "ls") (New "hist"))).disk = [] :=
  ⟨rfl,
    (mergeAndWriteRecord_merge_error demoEnv (publish (cmd "ls") (New "hist")) postLs preLs
      "Expected part1 and part2 of the same record" rfl).1,
    (mergeAndWriteRecord_merge_error demoEnv (publish (cmd "ls") (New "hist")) postLs preLs
      "Expected part1 and part2 of the same record" rfl).2.1⟩

/-! ## The recall actions -/

/-- Claim C12 (evaluation at the failing input). For the recall prefix `abc`, of
length 3, the sanitizer writes 2, and for a recall prefix of one byte it writes 0:
the slice `actionStr[4:]` starts one byte after the end of `up:`, and `actionStr[6:]`
one byte after the end of `down:`. -/
theorem sanitizeRecallActions_counts_one_less :
    sanitizer.sanitizeRecallActions (utf8 "|||arrow_up:abc")
      = Except.ok (utf8 "|||arrow_up:2", none) ∧
    sanitizer.sanitizeRecallActions (utf8 ";arrow_up:abc;arrow_down:hello")
      = Except.ok (utf8 "|||arrow_up:2|||arrow_down:4", none) ∧
    sanitizer.sanitizeRecallActions (utf8 "|||arrow_down:x|||arrow_up:")
      = Except.ok (utf8 "|||arrow_down:0|||arrow_up:0", none) := by
  refine ⟨?_, ?_, ?_⟩ <;> rfl

theorem sanitizeRecallActions_loop_total (str : List UInt8) (pieces : List (List UInt8)) :
    ∀ (x : Nat) (sanStr : List UInt8),
      ∃ r, sanitizer.sanitizeRecallActions.loop str x pieces sanStr = Except.ok r := by
  induction pieces with
  | nil =>
    intro x sanStr
    exact ⟨_, rfl⟩
  | cons actionStr rest ih =>
    intro x sanStr
    unfold sanitizer.sanitizeRecallActions.loop
    by_cases hx : x = 0
    · simp only [hx, if_true]
      exact ih _ _
    · simp only [hx, if_false]
      by_cases h0 : actionStr.length = 0
      · simp only [h0, if_true]
        exact ⟨_, rfl⟩
      · simp only [h0, if_false]
        by_cases hup : HasPrefix actionStr (utf8 "up:") = true
        · simp only [hup, if_true]
          by_cases h3 : actionStr.length < 3
          · simp only [h3, if_true]
            exact ⟨_, rfl⟩
          · simp only [h3, if_false]
            by_cases h3e : actionStr.length = 3
            · simp only [h3e, ne_eq, not_true_eq_false, if_false]
              exact ih _ _
            · have h4 : 4 ≤ actionStr.length := by omega
              simp only [ne_eq, h3e, not_false_eq_true, if_true, sliceFrom, h4]
              exact ih _ _
        · simp only [hup, Bool.false_eq_true, if_false]
          by_cases hdown : HasPrefix actionStr (utf8 "down:") = true
          · simp only [hdown, if_true]
            by_cases h5 : actionStr.length < 5
            · simp only [h5, if_true]
              exact ⟨_, rfl⟩
            · simp only [h5, if_false]
              by_cases h5e : actionStr.length = 5
              · simp only [h5e, ne_eq, not_true_eq_false, if_false]
                exact ih _ _
              · have h6 : 6 ≤ actionStr.length := by omega
                simp only [ne_eq, h5e, not_false_eq_true, if_true, sliceFrom, h6]
                exact ih _ _
          · simp only [hdown, Bool.false_eq_true, if_false]
            exact ⟨_, rfl⟩

/-- Claim C19. For every input the function `sanitizeRecallActions` returns a string
and an error value and does not panic: the slices `actionStr[4:]` and `actionStr[6:]`,
the only expressions of the function that can be out of range, are evaluated only
when `actionStr` has at least 4, respectively 6, bytes. -/
theorem sanitizeRecallActions_total (str : List UInt8) :
    ∃ sanStr err, sanitizer.sanitizeRecallActions str = Except.ok (sanStr, err) := by
  obtain ⟨r, hr⟩ := sanitizeRecallActions_loop_total str
    (Split str ((if Contains str (utf8 "|||") then utf8 "|||" else utf8 ";") ++ utf8 "arrow_"))
    0 []
  exact ⟨r.1, r.2, hr⟩

/-! ## Hashing a token -/

theorem length_EncodeToString (src : List UInt8) :
    (EncodeToString src).length = 2 * src.length := by
  induction src with
  | nil => rfl
  | cons v rest ih =>
    simp only [EncodeToString, List.flatMap_cons, List.length_append, List.length_cons,
      List.length_nil] at ih ⊢
    omega

theorem hexDigit_mem (n : Nat) (h : n < 16) : hexDigit n ∈ utf8 "0123456789abcdef" := by
  interval_cases n <;> decide

theorem mem_EncodeToString (src : List UInt8) (b : UInt8) (hb : b ∈ EncodeToString src) :
    b ∈ utf8 "0123456789abcdef" := by
  simp only [EncodeToString, List.mem_flatMap, List.mem_cons, List.mem_singleton,
    List.not_mem_nil, or_false] at hb
  obtain ⟨v, _, hv⟩ := hb
  have hlt : v.toNat < 256 := v.val.isLt
  rcases hv with hv | hv
  · rw [hv]
    exact hexDigit_mem _ (by omega)
  · rw [hv]
    exact hexDigit_mem _ (Nat.mod_lt _ (by decide))

theorem trimHash_eq (s : sanitizer) (hash : List UInt8) :
    s.trimHash hash =
      if 1 ≤ s.hashLength ∧ s.hashLength ≤ (hash.length : Int) then
        hash.take s.hashLength.toNat
      else hash := by
  unfold sanitizer.trimHash
  by_cases h : s.hashLength ≤ 0 ∨ (hash.length : Int) < s.hashLength
  · have h2 : ¬ (1 ≤ s.hashLength ∧ s.hashLength ≤ (hash.length : Int)) := by omega
    simp [h, h2]
  · have h2 : 1 ≤ s.hashLength ∧ s.hashLength ≤ (hash.length : Int) := by omega
    simp [h, h2]

theorem mem_hashToken (lib : Lib) (s : sanitizer) (token : List UInt8) (b : UInt8)
    (hb : b ∈ s.hashToken lib token) : b ∈ utf8 "0123456789abcdef" := by
  unfold sanitizer.hashToken at hb
  by_cases h0 : token.length ≤ 0
  · have : token = [] := List.length_eq_zero.mp (by omega)
    subst this
    simp at hb
  · simp only [h0, if_false, trimHash_eq] at hb
    split at hb
    · exact mem_EncodeToString _ _ (List.mem_of_mem_take hb)
    · exact mem_EncodeToString _ _ hb

/-- Claim C13. For a non-empty token, whose SHA-1 digest has 20 bytes, the
hexadecimal digest has 40 characters and `hashToken` returns its first `hashLength`
characters when `1 ≤ hashLength ≤ 40` and all 40 otherwise (`hashLength` 0, above 40,
or negative); for the empty token it returns the empty string. -/
theorem hashToken_trims_hex_digest (lib : Lib) (s : sanitizer) (token : List UInt8)
    (hne : token ≠ []) (hsum : (lib.Sum token).length = 20) :
    (EncodeToString (lib.Sum token)).length = 40 ∧
    s.hashToken lib token =
      (if 1 ≤ s.hashLength ∧ s.hashLength ≤ 40 then
        (EncodeToString (lib.Sum token)).take s.hashLength.toNat
       else EncodeToString (lib.Sum token)) ∧
    (s.hashToken lib token).length =
      (if 1 ≤ s.hashLength ∧ s.hashLength ≤ 40 then s.hashLength.toNat else 40) ∧
    s.hashToken lib [] = [] := by
  have h40 : (EncodeToString (lib.Sum token)).length = 40 := by
    rw [length_EncodeToString, hsum]
  have hpos : ¬ token.length ≤ 0 := by
    have := List.length_pos.mpr hne
    omega
  have heq : s.hashToken lib token =
      (if 1 ≤ s.hashLength ∧ s.hashLength ≤ 40 then
        (EncodeToString (lib.Sum token)).take s.hashLength.toNat
       else EncodeToString (lib.Sum token)) := by
    unfold sanitizer.hashToken
    simp only [hpos, if_false, trimHash_eq, h40]
    rfl
  refine ⟨h40, heq, ?_, by simp [sanitizer.hashToken]⟩
  rw [heq]
  split
  · rename_i h
    rw [List.length_take, h40]
    omega
  · exact h40

/-- Witness for claim C13: the token `home` and the default hash length 12. -/
theorem hashToken_trims_hex_digest_witness :
    utf8 "home" ≠ [] ∧ (demoLib.Sum (utf8 "home")).length = 20 ∧
    (demoSanitizer.hashToken demoLib (utf8 "home")).length = 12 ∧
    demoSanitizer.hashToken demoLib (utf8 "home")
      = (EncodeToString (demoLib.Sum (utf8 "home"))).take 12 :=
  ⟨by decide, by decide,
    (hashToken_trims_hex_digest demoLib demoSanitizer (utf8 "home") (by decide)
      (by decide)).2.2.1,
    (hashToken_trims_hex_digest demoLib demoSanitizer (utf8 "home") (by decide)
      (by decide)).2.1⟩

/-! ## Single letters -/

/-- Claim C15 (evaluation at the failing input). The token `é` is one letter and two
bytes long, so `len(token) <= 1` is false for it: with an empty whitelist, whatever
the digest function and the hash length, `sanitizeToken` and `sanitizeCmdToken`
return the trimmed hexadecimal digest of the token, which is not the token. -/
theorem two_byte_letter_is_hashed (Sum : List UInt8 → List UInt8) (hashLength : Int) :
    "é".length = 1 ∧ (demoLibWith Sum).IsLetter 'é' = true ∧ (utf8 "é").length = 2 ∧
    (noWhitelist hashLength).sanitizeToken (demoLibWith Sum) (utf8 "é")
      = (noWhitelist hashLength).hashToken (demoLibWith Sum) (utf8 "é") ∧
    (noWhitelist hashLength).sanitizeCmdToken (demoLibWith Sum) "é"
      = ((noWhitelist hashLength).hashToken (demoLibWith Sum) (utf8 "é"), none) ∧
    (noWhitelist hashLength).hashToken (demoLibWith Sum) (utf8 "é") ≠ utf8 "é" := by
  refine ⟨by decide, rfl, by decide, ?_, ?_, ?_⟩
  · have h2 : ¬ (utf8 "é").length ≤ 1 := by decide
    simp [sanitizer.sanitizeToken, h2, sanitizer.isInWhitelist, noWhitelist]
  · have h2 : ¬ (utf8 "é").length ≤ 1 := by decide
    have hf : sanitizer.sanitizeCmdToken.flags (demoLibWith Sum) "é".data (true, true)
        = (true, false) := rfl
    simp [sanitizer.sanitizeCmdToken, h2, sanitizer.isInWhitelist, noWhitelist, hf]
  · intro heq
    have hmem : (195 : UInt8) ∈ (noWhitelist hashLength).hashToken (demoLibWith Sum) (utf8 "é") := by
      rw [heq]
      decide
    exact absurd (mem_hashToken _ _ _ _ hmem) (by decide)

/-! ## Paths -/

theorem Split_scan_single (a : UInt8) (s : List UInt8) :
    ∀ acc : List UInt8, Split.scan [a] s 0 acc = List.splitOnP.go (· == a) s acc.reverse := by
  induction s with
  | nil =>
    intro acc
    simp [Split.scan, List.splitOnP.go]
  | cons c cs ih =>
    intro acc
    by_cases hc : c = a
    · subst hc
      simp [Split.scan, List.splitOnP.go, List.isPrefixOf, ih]
    · have hc2 : (a == c) = false := by simpa using fun h => hc h.symm
      have hc3 : (c == a) = false := by simpa using hc
      simp [Split.scan, List.splitOnP.go, List.isPrefixOf, hc2, hc3, ih]

theorem Split_single (a : UInt8) (s : List UInt8) : Split s [a] = s.splitOn a := by
  simp [Split, List.splitOn, List.splitOnP, Split_scan_single]

theorem splitOnP_go_no_sep (p : UInt8 → Bool) (xs : List UInt8) :
    ∀ acc : List UInt8, (∀ x ∈ acc, p x = false) →
      ∀ t ∈ List.splitOnP.go p xs acc, ∀ x ∈ t, p x = false := by
  induction xs with
  | nil =>
    intro acc hacc t ht x hx
    simp only [List.splitOnP.go, List.mem_singleton] at ht
    subst ht
    exact hacc x (List.mem_reverse.mp hx)
  | cons c cs ih =>
    intro acc hacc t ht x hx
    by_cases hp : p c = true
    · simp only [List.splitOnP.go, hp, if_true, List.mem_cons] at ht
      rcases ht with ht | ht
      · subst ht
        exact hacc x (List.mem_reverse.mp hx)
      · exact ih [] (by simp) t ht x hx
    · have hp2 : p c = false := by simpa using hp
      simp only [List.splitOnP.go, hp2, Bool.false_eq_true, if_false] at ht
      refine ih (c :: acc) ?_ t ht x hx
      intro y hy
      rcases List.mem_cons.mp hy with hy | hy
      · rw [hy]; exact hp2
      · exact hacc y hy

theorem not_mem_of_mem_Split (a : UInt8) (s t : List UInt8) (ht : t ∈ Split s [a]) : a ∉ t := by
  rw [Split_single] at ht
  intro ha
  have := splitOnP_go_no_sep (· == a) s [] (by simp) t ht a ha
  simp at this

theorem flatMap_append_sep (a : UInt8) (L : List (List UInt8)) (hL : L ≠ []) :
    L.flatMap (fun t => t ++ [a]) = [a].intercalate L ++ [a] := by
  induction L with
  | nil => exact absurd rfl hL
  | cons x rest ih =>
    cases rest with
    | nil => simp [List.intercalate]
    | cons y r =>
      have := ih (by simp)
      simp only [List.flatMap_cons] at this ⊢
      rw [this]
      simp [List.intercalate, List.intersperse]

theorem foldl_append_sep (f : List UInt8 → List UInt8) (a : UInt8) (L : List (List UInt8)) :
    ∀ init : List UInt8,
      L.foldl (fun sanPath token => sanPath ++ (f token ++ [a])) init
        = init ++ (L.map f).flatMap (fun t => t ++ [a]) := by
  induction L with
  | nil => intro init; simp
  | cons x rest ih =>
    intro init
    simp [List.foldl_cons, ih, List.flatMap_cons]

/-- Claim C20. The result of `sanitizePath` is the components of the path, split at
`/`, each kept when the whitelist holds it exactly and replaced by `hashToken` of it
otherwise, joined with `/`. Splitting the result at `/` gives back exactly these
sanitized components, so their number is that of the input, and an empty component
stays empty. -/
theorem sanitizePath_componentwise (lib : Lib) (s : sanitizer) (path : List UInt8) :
    s.sanitizePath lib path
      = (utf8 "/").intercalate
          ((Split path (utf8 "/")).map (sanitizer.sanitizePath.component lib s)) ∧
    Split (s.sanitizePath lib path) (utf8 "/")
      = (Split path (utf8 "/")).map (sanitizer.sanitizePath.component lib s) ∧
    (Split (s.sanitizePath lib path) (utf8 "/")).length = (Split path (utf8 "/")).length ∧
    sanitizer.sanitizePath.component lib s [] = [] := by
  have hsl : utf8 "/" = [47] := by decide
  have hne : Split path [47] ≠ [] := by
    rw [Split_single]
    exact List.splitOnP_ne_nil _ _
  have hne2 : (Split path [47]).map (sanitizer.sanitizePath.component lib s) ≠ [] := by
    simpa using hne
  have hfun : (fun (sanPath token : List UInt8) =>
      sanPath ++ ((if (s.whitelist token != true) = true then s.hashToken lib token else token)
        ++ [47]))
      = (fun sanPath token => sanPath ++ (sanitizer.sanitizePath.component lib s token ++ [47])) := by
    funext sanPath token
    unfold sanitizer.sanitizePath.component
    cases s.whitelist token <;> simp
  have h1 : s.sanitizePath lib path
      = [47].intercalate ((Split path [47]).map (sanitizer.sanitizePath.component lib s)) := by
    unfold sanitizer.sanitizePath
    simp only [hsl, hfun, foldl_append_sep, List.nil_append, flatMap_append_sep _ _ hne2]
    simp
  have hcomp : ∀ l ∈ (Split path [47]).map (sanitizer.sanitizePath.component lib s),
      (47 : UInt8) ∉ l := by
    intro l hl
    obtain ⟨t, ht, rfl⟩ := List.mem_map.mp hl
    unfold sanitizer.sanitizePath.component
    split
    · exact not_mem_of_mem_Split 47 path t ht
    · intro hmem
      exact absurd (mem_hashToken _ _ _ _ hmem) (by decide)
  have h2 : Split (s.sanitizePath lib path) [47]
      = (Split path [47]).map (sanitizer.sanitizePath.component lib s) := by
    rw [h1, Split_single]
    exact List.splitOn_intercalate _ 47 hcomp hne2
  refine ⟨by rw [hsl]; exact h1, by rw [hsl]; exact h2, ?_, ?_⟩
  · rw [hsl, h2, List.length_map]
  · simp [sanitizer.sanitizePath.component, sanitizer.hashToken]

/-! ## The session-table invariant -/

theorem sessionGC_without_entry_aux (w : World) (k : String)
    (hn : w.h.sessions.get? k = none) : (sessionGCBody k w).h = w.h := by
  have hn1 : (logPrintln ("histfile: got session to drop " ++ k) w).h.sessions.get? k
      = none := hn
  simp only [sessionGCBody, hn1]
  simp [logPrintln]

theorem SessionsOK_delete (m : GoMap Record) (k : String) (hm : SessionsOK m) :
    SessionsOK (m.delete k) := by
  intro e he
  exact hm e (List.mem_of_mem_filter he)

theorem SessionsOK_set (m : GoMap Record) (r : Record) (hm : SessionsOK m)
    (hp : r.PartOne = true) : SessionsOK (m.set (mergeID r) r) := by
  intro e he
  rcases List.mem_cons.mp he with he | he
  · subst he
    exact ⟨hp, rfl⟩
  · exact SessionsOK_delete m _ hm e he

theorem shutdownRange_sessions (env : Env) (entries : List (String × Record)) :
    ∀ w : World, (shutdownRange env entries w).h.sessions = w.h.sessions := by
  induction entries with
  | nil => intro w; rfl
  | cons e rest ih =>
    intro w
    obtain ⟨sessID, record⟩ := e
    simp [shutdownRange, logPanicln]

theorem writerBody_sessionsOK (env : Env) (sel : Select) (w : World)
    (h : SessionsOK w.h.sessions) : SessionsOK (writerBody env sel w).h.sessions := by
  cases sel with
  | input record =>
    cases hp : record.PartOne with
    | true =>
      rw [writerBody_partOne env record w hp]
      exact SessionsOK_set _ _ h hp
    | false =>
      cases hg : w.h.sessions.get? (mergeID record) with
      | none =>
        rw [writerBody_partTwo_none env record w hp hg]
        exact h
      | some part1 =>
        rw [writerBody_partTwo_some env record part1 w hp hg]
        exact SessionsOK_delete _ _ h
  | signals sig =>
    have hs : (writerBody env (Select.signals sig) w).h.sessions = w.h.sessions := by
      simp only [writerBody]
      split
      · rw [shutdownRange_sessions]
        rfl
      · simp only [logPrintln]
        rw [shutdownRange_sessions]
    rw [hs]
    exact h

theorem sessionGCBody_sessions (session : String) (w : World) :
    (sessionGCBody session w).h.sessions = w.h.sessions.delete session ∨
    (sessionGCBody session w).h.sessions = w.h.sessions := by
  cases hg : w.h.sessions.get? session with
  | none =>
    right
    exact congrArg Histfile.sessions (sessionGC_without_entry_aux w session hg)
  | some r =>
    left
    rw [sessionGCBody_found session r w hg]

theorem Goroutine_run_sessions (env : Env) (g : Goroutine) (w : World) :
    (Goroutine.run env g w).h.sessions = w.h.sessions := by
  cases g with
  | writeRecord rec outputPath =>
    simp only [Goroutine.run, writeRecord]
    split <;> rfl
  | mergeAndWriteRecord part1 part2 =>
    simp only [Goroutine.run, mergeAndWriteRecord]
    split
    · rfl
    · have hpub : ∀ r, (publish r w).h.sessions = w.h.sessions := by
        intro r
        simp only [publish]
        split <;> rfl
      split
      · exact hpub _
      · simp only [writeRecord]
        split <;> exact hpub _

theorem runEvents_sessionsOK (env : Env) (events : List Event) :
    ∀ w : World, SessionsOK w.h.sessions → SessionsOK (runEvents env events w).h.sessions := by
  induction events with
  | nil => intro w h; exact h
  | cons e rest ih =>
    intro w h
    have h1 : SessionsOK (Event.run env e w).h.sessions := by
      cases e with
      | writer sel => exact writerBody_sessionsOK env sel w h
      | sessionGC session =>
        rcases sessionGCBody_sessions session w with hs | hs
        · simp only [Event.run, hs]
          exact SessionsOK_delete _ _ h
        · simp only [Event.run, hs]
          exact h
      | goroutine g =>
        simp only [Event.run, Goroutine_run_sessions]
        exact h
    simp only [runEvents]
    split
    · exact h1
    · exact ih _ h1

/-- Claim C16. From the state `New` builds, after any finite sequence of steps of
the writer (a half submitted, or the shutdown signal), of the session GC and of the
started goroutines, every entry of the session table is a first half (`PartOne` true)
stored under the key `SessionID + "_" + Itoa(Shlvl)` of that half. -/
theorem session_table_invariant (env : Env) (events : List Event) (path : String) :
    SessionsOK (runEvents env events (New path)).h.sessions := by
  apply runEvents_sessionsOK
  intro e he
  simp [New] at he

/-! ## The merge key -/

theorem digitChar_mem (k : Nat) (h : k < 10) : Nat.digitChar k ∈ "0123456789".data := by
  interval_cases k <;> decide

theorem decimalValue_digitChar (k : Nat) (h : k < 10) : (Nat.digitChar k).toNat - 48 = k := by
  interval_cases k <;> rfl

theorem toDigitsCore_append (fuel : Nat) : ∀ (n : Nat) (ds : List Char),
    Nat.toDigitsCore 10 fuel n ds = Nat.toDigitsCore 10 fuel n [] ++ ds := by
  induction fuel with
  | zero => intro n ds; rfl
  | succ fuel ih =>
    intro n ds
    simp only [Nat.toDigitsCore]
    split
    · rfl
    · rw [ih (n / 10) (Nat.digitChar (n % 10) :: ds), ih (n / 10) [Nat.digitChar (n % 10)]]
      simp

theorem toDigitsCore_mem (fuel : Nat) : ∀ (n : Nat) (c : Char),
    c ∈ Nat.toDigitsCore 10 fuel n [] → c ∈ "0123456789".data := by
  induction fuel with
  | zero => intro n c hc; simp [Nat.toDigitsCore] at hc
  | succ fuel ih =>
    intro n c hc
    simp only [Nat.toDigitsCore] at hc
    split at hc
    · rw [List.mem_singleton] at hc
      rw [hc]
      exact digitChar_mem _ (Nat.mod_lt _ (by decide))
    · rw [toDigitsCore_append, List.mem_append, List.mem_singleton] at hc
      rcases hc with hc | hc
      · exact ih _ c hc
      · rw [hc]
        exact digitChar_mem _ (Nat.mod_lt _ (by decide))

theorem decimalValue_append_singleton (ds : List Char) (c : Char) :
    decimalValue (ds ++ [c]) = decimalValue ds * 10 + (c.toNat - 48) := by
  simp [decimalValue, List.foldl_append]

theorem decimalValue_toDigitsCore (fuel : Nat) : ∀ n : Nat, n < fuel →
    decimalValue (Nat.toDigitsCore 10 fuel n []) = n := by
  induction fuel with
  | zero => intro n h; omega
  | succ fuel ih =>
    intro n h
    simp only [Nat.toDigitsCore]
    split
    · rename_i h0
      have hd := decimalValue_digitChar (n % 10) (Nat.mod_lt _ (by decide))
      simp only [decimalValue, List.foldl_cons, List.foldl_nil, hd]
      omega
    · rename_i h0
      rw [toDigitsCore_append, decimalValue_append_singleton,
        ih (n / 10) (by omega), decimalValue_digitChar (n % 10) (Nat.mod_lt _ (by decide))]
      omega

theorem Nat_repr_data (n : Nat) : (Nat.repr n).data = Nat.toDigits 10 n := rfl

theorem Nat_repr_injective (m k : Nat) (h : Nat.repr m = Nat.repr k) : m = k := by
  have h1 : Nat.toDigits 10 m = Nat.toDigits 10 k := by
    rw [← Nat_repr_data, ← Nat_repr_data, h]
  have hm := decimalValue_toDigitsCore (m + 1) m (by omega)
  have hk := decimalValue_toDigitsCore (k + 1) k (by omega)
  simp only [Nat.toDigits] at h1
  rw [h1] at hm
  omega

theorem Nat_repr_mem (n : Nat) (c : Char) (hc : c ∈ (Nat.repr n).data) :
    c ∈ "0123456789".data :=
  toDigitsCore_mem _ _ c hc

theorem Itoa_data (n : Int) :
    (∃ m : Nat, n = Int.ofNat m ∧ (Itoa n).data = (Nat.repr m).data) ∨
    (∃ m : Nat, n = Int.negSucc m ∧ (Itoa n).data = '-' :: (Nat.repr (m + 1)).data) := by
  cases n with
  | ofNat m => exact Or.inl ⟨m, rfl, rfl⟩
  | negSucc m => exact Or.inr ⟨m, rfl, rfl⟩

theorem Itoa_no_underscore (n : Int) : '_' ∉ (Itoa n).data := by
  intro h
  rcases Itoa_data n with ⟨m, _, hd⟩ | ⟨m, _, hd⟩
  · rw [hd] at h
    exact absurd (Nat_repr_mem _ _ h) (by decide)
  · rw [hd, List.mem_cons] at h
    rcases h with h | h
    · exact absurd h (by decide)
    · exact absurd (Nat_repr_mem _ _ h) (by decide)

theorem Itoa_injective (n1 n2 : Int) (h : (Itoa n1).data = (Itoa n2).data) : n1 = n2 := by
  have hne : ∀ m : Nat, (Nat.repr m).data ≠ [] := by
    intro m h0
    have := decimalValue_toDigitsCore (m + 1) m (by omega)
    have hlen := congrArg List.length h0
    rw [Nat_repr_data, Nat.toDigits] at hlen
    simp only [Nat.toDigitsCore] at hlen
    split at hlen
    · simp at hlen
    · rw [toDigitsCore_append] at hlen
      simp at hlen
  rcases Itoa_data n1 with ⟨m1, e1, d1⟩ | ⟨m1, e1, d1⟩ <;>
    rcases Itoa_data n2 with ⟨m2, e2, d2⟩ | ⟨m2, e2, d2⟩
  · rw [d1, d2] at h
    rw [e1, e2, Nat_repr_injective m1 m2 (String.ext h)]
  · rw [d1, d2] at h
    have : '-' ∈ (Nat.repr m1).data := by rw [h]; exact List.mem_cons_self _ _
    exact absurd (Nat_repr_mem _ _ this) (by decide)
  · rw [d1, d2] at h
    have : '-' ∈ (Nat.repr m2).data := by rw [← h]; exact List.mem_cons_self _ _
    exact absurd (Nat_repr_mem _ _ this) (by decide)
  · rw [d1, d2] at h
    have h2 := Nat_repr_injective _ _ (String.ext (List.cons.inj h).2)
    rw [e1, e2]
    congr 1
    omega

theorem append_cons_inj_left (a : Char) : ∀ (x x2 z z2 : List Char),
    a ∉ x → a ∉ x2 → x ++ a :: z = x2 ++ a :: z2 → x = x2 ∧ z = z2 := by
  intro x
  induction x with
  | nil =>
    intro x2 z z2 _ h2 h
    cases x2 with
    | nil => exact ⟨rfl, (List.cons.inj h).2⟩
    | cons b t =>
      have := (List.cons.inj h).1
      exact absurd (this ▸ List.mem_cons_self _ _) h2
  | cons c t ih =>
    intro x2 z z2 h1 h2 h
    cases x2 with
    | nil =>
      have := (List.cons.inj h).1
      exact absurd (this ▸ List.mem_cons_self _ _) h1
    | cons b t2 =>
      obtain ⟨hcb, hrest⟩ := List.cons.inj h
      obtain ⟨e1, e2⟩ := ih t2 z z2 (fun hm => h1 (List.mem_cons_of_mem _ hm))
        (fun hm => h2 (List.mem_cons_of_mem _ hm)) hrest
      exact ⟨by rw [hcb, e1], e2⟩

/-- Claim C17. The merge key determines the session identifier and the shell level:
if `s1 + "_" + Itoa(n1)` and `s2 + "_" + Itoa(n2)` are the same string then `s1 = s2`
and `n1 = n2`, for arbitrary strings (underscores included) and integers. -/
theorem mergeID_injective (s1 s2 : String) (n1 n2 : Int)
    (h : s1 ++ "_" ++ Itoa n1 = s2 ++ "_" ++ Itoa n2) : s1 = s2 ∧ n1 = n2 := by
  have hd := congrArg String.data h
  simp only [String.data_append] at hd
  have hd2 : (Itoa n1).data.reverse ++ '_' :: s1.data.reverse
      = (Itoa n2).data.reverse ++ '_' :: s2.data.reverse := by
    have := congrArg List.reverse hd
    simpa using this
  obtain ⟨e1, e2⟩ := append_cons_inj_left '_' _ _ _ _
    (fun hm => Itoa_no_underscore n1 (List.mem_reverse.mp hm))
    (fun hm => Itoa_no_underscore n2 (List.mem_reverse.mp hm)) hd2
  exact ⟨String.ext (List.reverse_injective e2), Itoa_injective _ _ (List.reverse_injective e1)⟩

/-- Witness for claim C17: the key of session `a_1` at level 2 read against itself. -/
theorem mergeID_injective_witness :
    "a_1" ++ "_" ++ Itoa 2 = "a_1" ++ "_" ++ Itoa 2 ∧ ("a_1" = "a_1" ∧ (2 : Int) = 2) :=
  ⟨rfl, mergeID_injective "a_1" "a_1" 2 2 rfl⟩

/-! ## The session GC and the bare session identifier -/

theorem mergeID_ne_SessionID (p : Record) : mergeID p ≠ p.SessionID := by
  intro h
  have hlen : (p.SessionID ++ "_" ++ Itoa p.Shlvl).length = p.SessionID.length :=
    congrArg String.length h
  rw [String.length_append, String.length_append] at hlen
  have h1 : "_".length = 1 := rfl
  omega

/-- Claim C18. A first half `p` stored by the writer step, then a GC step that
receives the bare session identifier `p.SessionID`: the table still holds `p` under
its merge key, and the GC step either starts no goroutine or starts the write of a
record other than `p` (the one stored under the literal key `p.SessionID`). -/
theorem sessionGC_bare_session_keeps_entry (env : Env) (w : World) (p : Record)
    (hp : p.PartOne = true) (hok : SessionsOK w.h.sessions) :
    (writerBody env (Select.input p) w).h.sessions.get? (mergeID p) = some p ∧
    (sessionGCBody p.SessionID (writerBody env (Select.input p) w)).h.sessions.get?
      (mergeID p) = some p ∧
    ((sessionGCBody p.SessionID (writerBody env (Select.input p) w)).spawned
        = (writerBody env (Select.input p) w).spawned ∨
      ∃ r, r ≠ p ∧
        (sessionGCBody p.SessionID (writerBody env (Select.input p) w)).spawned
          = (writerBody env (Select.input p) w).spawned
            ++ [Goroutine.writeRecord r w.h.historyPath]) := by
  have e1 := writerBody_partOne env p w hp
  have hget : (writerBody env (Select.input p) w).h.sessions.get? (mergeID p) = some p := by
    rw [e1]
    exact GoMap.get?_set_self _ _ _
  have hpath : (writerBody env (Select.input p) w).h.historyPath = w.h.historyPath := by
    rw [e1]
  have hok1 : SessionsOK (writerBody env (Select.input p) w).h.sessions :=
    writerBody_sessionsOK env _ w hok
  refine ⟨hget, ?_, ?_⟩
  · cases hg : (writerBody env (Select.input p) w).h.sessions.get? p.SessionID with
    | none =>
      rw [sessionGC_without_entry_aux _ _ hg]
      exact hget
    | some r =>
      rw [sessionGCBody_found _ r _ hg]
      show (GoMap.delete _ _).get? _ = _
      rw [GoMap.get?_delete_ne _ _ _ (mergeID_ne_SessionID p)]
      exact hget
  · cases hg : (writerBody env (Select.input p) w).h.sessions.get? p.SessionID with
    | none =>
      left
      have hn1 : (logPrintln ("histfile: got session to drop " ++ p.SessionID)
          (writerBody env (Select.input p) w)).h.sessions.get? p.SessionID = none := hg
      simp only [sessionGCBody, hn1]
      simp [logPrintln]
    | some r =>
      right
      refine ⟨r, ?_, ?_⟩
      · intro hrp
        have hmem := GoMap.mem_of_get? _ _ _ hg
        have := (hok1 _ hmem).2
        rw [hrp] at this
        exact mergeID_ne_SessionID p this.symm
      · rw [sessionGCBody_found _ r _ hg, hpath]

/-- Witness for claim C18: the example stored under `s1_1`, then the session GC
receives `s1`. -/
theorem sessionGC_bare_session_keeps_entry_witness :
    preLs.PartOne = true ∧ SessionsOK (New "hist").h.sessions ∧
    (sessionGCBody preLs.SessionID
      (writerBody demoEnv (Select.input preLs) (New "hist"))).h.sessions.get? (mergeID preLs)
      = some preLs :=
  ⟨rfl, fun e he => absurd he (List.not_mem_nil e),
    (sessionGC_bare_session_keeps_entry demoEnv (New "hist") preLs rfl
      (fun e he => absurd he (List.not_mem_nil e))).2.1⟩

/-! ## Options in a command line -/

theorem utf8_append (a b : String) : utf8 (a ++ b) = utf8 a ++ utf8 b := by
  simp [utf8, String.data_append, List.flatMap_append]

theorem utf8_eq_nil (a : String) (h : (utf8 a).length = 0) : a = "" := by
  apply String.ext
  cases hd : a.data with
  | nil => rfl
  | cons c cs =>
    have hpos := Char.utf8Size_pos c
    simp only [utf8, hd, List.flatMap_cons, List.length_append,
      String.length_utf8EncodeChar] at h
    omega

theorem utf8_length_cons (c : Char) (cs : List Char) : 0 < (utf8 ⟨c :: cs⟩).length := by
  have hpos := Char.utf8Size_pos c
  simp only [utf8, List.flatMap_cons, List.length_append, String.length_utf8EncodeChar]
  omega

theorem flush_buff (lib : Lib) (s : sanitizer) (v : CmdLineVars) :
    (sanitizer.sanitizeCmdLine.flush lib s v).buff = "" ∧
    (sanitizer.sanitizeCmdLine.flush lib s v).optionDetected = v.optionDetected := by
  unfold sanitizer.sanitizeCmdLine.flush
  split
  · exact ⟨rfl, rfl⟩
  · exact ⟨utf8_eq_nil _ (by omega), rfl⟩

theorem flush_empty (lib : Lib) (s : sanitizer) (v : CmdLineVars) (hb : v.buff = "") :
    sanitizer.sanitizeCmdLine.flush lib s v = v := by
  unfold sanitizer.sanitizeCmdLine.flush
  have : ¬ (utf8 v.buff).length > 0 := by rw [hb]; decide
  simp [this]

theorem body_blank (lib : Lib) (s : sanitizer) (hs : lib.Sane) (v : CmdLineVars) :
    (sanitizer.sanitizeCmdLine.body lib s v ' ').buff = "" ∧
    (sanitizer.sanitizeCmdLine.body lib s v ' ').optionDetected = false ∧
    (sanitizer.sanitizeCmdLine.body lib s v ' ').prevR = ' ' := by
  obtain ⟨h1, h2, h3, _, _, _⟩ := hs
  unfold sanitizer.sanitizeCmdLine.body
  cases ho : v.optionDetected with
  | true =>
    simp only [if_true, h1, Bool.true_or]
    refine ⟨?_, ?_, trivial⟩
    · split
      · rfl
      · exact utf8_eq_nil _ (by simp only at *; omega)
    · split <;> rfl
  | false =>
    simp only [Bool.false_eq_true, if_false, h2, h3, beq_self_eq_true, Bool.and_self, if_true]
    have hf := flush_buff lib s v
    exact ⟨hf.1, hf.2.trans ho, trivial⟩

theorem body_dash (lib : Lib) (s : sanitizer) (hs : lib.Sane) (v : CmdLineVars)
    (hb : v.buff = "") (ho : v.optionDetected = false) :
    sanitizer.sanitizeCmdLine.body lib s v '-' =
      { sanCmdLine := v.sanCmdLine ++ utf8 "-", buff := "", optionDetected := false,
        prevR3 := v.prevR2, prevR2 := v.prevR, prevR := '-' } := by
  obtain ⟨_, _, _, h4, h5, _⟩ := hs
  unfold sanitizer.sanitizeCmdLine.body
  simp only [ho, Bool.false_eq_true, if_false, h4, h5, beq_self_eq_true, Bool.and_self, if_true,
    flush_empty lib s v hb, hb]
  rfl

theorem body_first (lib : Lib) (s : sanitizer) (v : CmdLineVars) (c : Char)
    (hb : v.buff = "") (ho : v.optionDetected = false) (hr : v.prevR = '-')
    (hD : lib.IsSpace v.prevR2 = true ∨ (lib.IsSpace v.prevR3 = true ∧ v.prevR2 = '-'))
    (hc : lib.IsLetter c = true ∨ lib.IsDigit c = true) :
    (sanitizer.sanitizeCmdLine.body lib s v c).sanCmdLine = v.sanCmdLine ∧
    (sanitizer.sanitizeCmdLine.body lib s v c).buff.data = [c] ∧
    (sanitizer.sanitizeCmdLine.body lib s v c).optionDetected = true := by
  have hnot : ¬ ((lib.IsLetter c == false && lib.IsDigit c == false) = true) := by
    rcases hc with hc | hc <;> simp [hc]
  have hdet : ((lib.IsSpace v.prevR2 && v.prevR == '-') ||
      (lib.IsSpace v.prevR3 && v.prevR2 == '-' && v.prevR == '-')) = true := by
    rcases hD with hD | ⟨hD1, hD2⟩
    · simp [hD, hr]
    · simp [hD1, hD2, hr]
  unfold sanitizer.sanitizeCmdLine.body
  simp only [ho, Bool.false_eq_true, if_false, hnot, hdet, if_true, hb]
  exact ⟨trivial, rfl, trivial⟩

theorem body_option (lib : Lib) (s : sanitizer) (hs : lib.Sane) (v : CmdLineVars) (c : Char)
    (ho : v.optionDetected = true)
    (hc : lib.IsLetter c = true ∨ lib.IsDigit c = true ∨ c = '-' ∨ c = '_') :
    (sanitizer.sanitizeCmdLine.body lib s v c).sanCmdLine = v.sanCmdLine ∧
    (sanitizer.sanitizeCmdLine.body lib s v c).buff.data = v.buff.data ++ [c] ∧
    (sanitizer.sanitizeCmdLine.body lib s v c).optionDetected = true := by
  obtain ⟨_, _, _, _, _, h6⟩ := hs
  obtain ⟨hsp, hend⟩ := h6 c hc
  have hnot : ¬ ((lib.IsLetter c == false && lib.IsDigit c == false &&
      ContainsRune optionAllowedChars c == false) = true) := by
    rcases hc with hc | hc | hc | hc
    · simp [hc]
    · simp [hc]
    · subst hc
      have : ContainsRune optionAllowedChars '-' = true := by decide
      simp [this]
    · subst hc
      have : ContainsRune optionAllowedChars '_' = true := by decide
      simp [this]
  unfold sanitizer.sanitizeCmdLine.body
  simp only [ho, if_true, hsp, hend, Bool.or_self, Bool.false_eq_true, if_false, hnot]
  exact ⟨trivial, rfl, trivial⟩

theorem foldl_option (lib : Lib) (s : sanitizer) (hs : lib.Sane) (w : List Char) :
    ∀ v : CmdLineVars, v.optionDetected = true →
      (∀ c ∈ w, lib.IsLetter c = true ∨ lib.IsDigit c = true ∨ c = '-' ∨ c = '_') →
      (w.foldl (sanitizer.sanitizeCmdLine.body lib s) v).sanCmdLine = v.sanCmdLine ∧
      (w.foldl (sanitizer.sanitizeCmdLine.body lib s) v).buff.data = v.buff.data ++ w ∧
      (w.foldl (sanitizer.sanitizeCmdLine.body lib s) v).optionDetected = true := by
  induction w with
  | nil => intro v ho _; simp [ho]
  | cons c rest ih =>
    intro v ho hw
    obtain ⟨b1, b2, b3⟩ := body_option lib s hs v c ho (hw c (List.mem_cons_self _ _))
    obtain ⟨i1, i2, i3⟩ := ih (sanitizer.sanitizeCmdLine.body lib s v c) b3
      (fun x hx => hw x (List.mem_cons_of_mem _ hx))
    simp only [List.foldl_cons]
    refine ⟨i1.trans b1, ?_, i3⟩
    rw [i2, b2]
    simp

theorem finish_empty (lib : Lib) (s : sanitizer) (v : CmdLineVars) (hb : v.buff = "") :
    sanitizer.sanitizeCmdLine.finish lib s v = (v.sanCmdLine, none) := by
  unfold sanitizer.sanitizeCmdLine.finish
  have : (utf8 v.buff).length ≤ 0 := by rw [hb]; decide
  simp [this]

/-- An option word read from a state in which a hyphen was just read after white
space: the word is emitted as it is. -/
theorem option_word (lib : Lib) (s : sanitizer) (hs : lib.Sane) (v : CmdLineVars)
    (c : Char) (rest : List Char)
    (hb : v.buff = "") (ho : v.optionDetected = false) (hr : v.prevR = '-')
    (hD : lib.IsSpace v.prevR2 = true ∨ (lib.IsSpace v.prevR3 = true ∧ v.prevR2 = '-'))
    (hc : lib.IsLetter c = true ∨ lib.IsDigit c = true)
    (hw : ∀ x ∈ rest, lib.IsLetter x = true ∨ lib.IsDigit x = true ∨ x = '-' ∨ x = '_') :
    sanitizer.sanitizeCmdLine.finish lib s
        ((c :: rest).foldl (sanitizer.sanitizeCmdLine.body lib s) v)
      = (v.sanCmdLine ++ utf8 ⟨c :: rest⟩, none) := by
  obtain ⟨b1, b2, b3⟩ := body_first lib s v c hb ho hr hD hc
  obtain ⟨i1, i2, i3⟩ := foldl_option lib s hs rest _ b3 hw
  rw [b2] at i2
  have hbuff : ((c :: rest).foldl (sanitizer.sanitizeCmdLine.body lib s) v).buff
      = ⟨c :: rest⟩ := String.ext (by simpa using i2)
  have hsan : ((c :: rest).foldl (sanitizer.sanitizeCmdLine.body lib s) v).sanCmdLine
      = v.sanCmdLine := by simpa using i1.trans b1
  have hopt : ((c :: rest).foldl (sanitizer.sanitizeCmdLine.body lib s) v).optionDetected
      = true := by simpa using i3
  have hlen : ¬ (utf8 ⟨c :: rest⟩).length ≤ 0 := by
    have := utf8_length_cons c rest
    omega
  unfold sanitizer.sanitizeCmdLine.finish
  simp only [hbuff, hsan, hopt, hlen, if_false, if_true]

/-- Claim C14. With a library whose Unicode classes satisfy `Lib.Sane`, for every
command line `s`, every sanitizer (whitelist and hash length) and every word `w` of
letters, digits, `-` and `_` that starts with a letter or a digit: sanitizing
`s + " -" + w` gives the result for `s + " -"` followed by `w` unchanged, and the
same with `" --"`; the error is `nil`. -/
theorem sanitizeCmdLine_keeps_option (lib : Lib) (sz : sanitizer) (s w : String)
    (c : Char) (rest : List Char) (hs : lib.Sane)
    (hwd : w.data = c :: rest)
    (hc : lib.IsLetter c = true ∨ lib.IsDigit c = true)
    (hw : ∀ x ∈ rest, lib.IsLetter x = true ∨ lib.IsDigit x = true ∨ x = '-' ∨ x = '_') :
    sz.sanitizeCmdLine lib (s ++ " -" ++ w)
      = ((sz.sanitizeCmdLine lib (s ++ " -")).1 ++ utf8 w, none) ∧
    sz.sanitizeCmdLine lib (s ++ " --" ++ w)
      = ((sz.sanitizeCmdLine lib (s ++ " --")).1 ++ utf8 w, none) := by
  have hw8 : utf8 w = utf8 ⟨c :: rest⟩ := by simp [utf8, hwd]
  obtain ⟨a1, a2, a3⟩ := body_blank lib sz hs
    (s.data.foldl (sanitizer.sanitizeCmdLine.body lib sz) sanitizer.sanitizeCmdLine.init)
  have hd1 := body_dash lib sz hs _ a1 a2
  have hd2 := body_dash lib sz hs
    (sanitizer.sanitizeCmdLine.body lib sz
      (sanitizer.sanitizeCmdLine.body lib sz
        (s.data.foldl (sanitizer.sanitizeCmdLine.body lib sz) sanitizer.sanitizeCmdLine.init)
        ' ') '-')
    (by rw [hd1]) (by rw [hd1])
  have hsp : lib.IsSpace ' ' = true := hs.1
  have r1 : sz.sanitizeCmdLine lib (s ++ " -")
      = ((sanitizer.sanitizeCmdLine.body lib sz
          (s.data.foldl (sanitizer.sanitizeCmdLine.body lib sz)
            sanitizer.sanitizeCmdLine.init) ' ').sanCmdLine ++ utf8 "-", none) := by
    have e2 : (s ++ " -").data = s.data ++ [' ', '-'] := by
      simp [String.data_append]
    simp only [sanitizer.sanitizeCmdLine, e2, List.foldl_append, List.foldl_cons,
      List.foldl_nil]
    rw [hd1]
    exact finish_empty lib sz _ rfl
  have l1 : sz.sanitizeCmdLine lib (s ++ " -" ++ w)
      = ((sanitizer.sanitizeCmdLine.body lib sz
          (s.data.foldl (sanitizer.sanitizeCmdLine.body lib sz)
            sanitizer.sanitizeCmdLine.init) ' ').sanCmdLine ++ utf8 "-" ++ utf8 w, none) := by
    have e1 : (s ++ " -" ++ w).data = s.data ++ ' ' :: '-' :: (c :: rest) := by
      simp [String.data_append, hwd]
    simp only [sanitizer.sanitizeCmdLine, e1, List.foldl_append, List.foldl_cons]
    rw [hd1, hw8]
    exact option_word lib sz hs _ c rest rfl rfl rfl (Or.inl (by rw [a3]; exact hsp)) hc hw
  have r2 : sz.sanitizeCmdLine lib (s ++ " --")
      = ((sanitizer.sanitizeCmdLine.body lib sz
          (s.data.foldl (sanitizer.sanitizeCmdLine.body lib sz)
            sanitizer.sanitizeCmdLine.init) ' ').sanCmdLine ++ utf8 "-" ++ utf8 "-", none) := by
    have e2 : (s ++ " --").data = s.data ++ [' ', '-', '-'] := by
      simp [String.data_append]
    simp only [sanitizer.sanitizeCmdLine, e2, List.foldl_append, List.foldl_cons,
      List.foldl_nil]
    rw [hd2, hd1]
    exact finish_empty lib sz _ rfl
  have l2 : sz.sanitizeCmdLine lib (s ++ " --" ++ w)
      = ((sanitizer.sanitizeCmdLine.body lib sz
          (s.data.foldl (sanitizer.sanitizeCmdLine.body lib sz)
            sanitizer.sanitizeCmdLine.init) ' ').sanCmdLine ++ utf8 "-" ++ utf8 "-"
          ++ utf8 w, none) := by
    have e1 : (s ++ " --" ++ w).data = s.data ++ ' ' :: '-' :: '-' :: (c :: rest) := by
      simp [String.data_append, hwd]
    simp only [sanitizer.sanitizeCmdLine, e1, List.foldl_append, List.foldl_cons]
    rw [hd2, hd1, hw8]
    exact option_word lib sz hs _ c rest rfl rfl rfl
      (Or.inr ⟨by show lib.IsSpace _ = true; rw [a3]; exact hsp, rfl⟩) hc hw
  exact ⟨by rw [l1, r1], by rw [l2, r2]⟩

theorem demoLib_class_range (c : Char)
    (hc : demoLib.IsLetter c = true ∨ demoLib.IsDigit c = true ∨ c = '-' ∨ c = '_') :
    (48 ≤ c.toNat ∧ c.toNat ≤ 57) ∨ (65 ≤ c.toNat ∧ c.toNat ≤ 90) ∨
    (97 ≤ c.toNat ∧ c.toNat ≤ 122) ∨ 192 ≤ c.toNat ∨ c.toNat = 45 ∨ c.toNat = 95 := by
  rcases hc with hc | hc | hc | hc
  · simp only [demoLib, Bool.or_eq_true, Bool.and_eq_true, decide_eq_true_eq] at hc
    rcases hc with hc | hc
    · simp only [Char.isAlpha, Char.isUpper, Char.isLower, Bool.or_eq_true, Bool.and_eq_true,
        decide_eq_true_eq, ge_iff_le, UInt32.le_def, Fin.le_def] at hc
      rcases hc with hc | hc
      · exact Or.inr (Or.inl hc)
      · exact Or.inr (Or.inr (Or.inl hc))
    · exact Or.inr (Or.inr (Or.inr (Or.inl hc.1.1.1)))
  · simp only [demoLib, Char.isDigit, Bool.and_eq_true, decide_eq_true_eq, ge_iff_le,
      UInt32.le_def, Fin.le_def] at hc
    exact Or.inl hc
  · subst hc
    decide
  · subst hc
    decide

theorem demoLib_sane : demoLib.Sane := by
  refine ⟨by decide, by decide, by decide, by decide, by decide, ?_⟩
  intro c hc
  have hr := demoLib_class_range c hc
  constructor
  · cases hsp : demoLib.IsSpace c with
    | false => rfl
    | true =>
      simp only [demoLib, Char.isWhitespace, Bool.or_eq_true, decide_eq_true_eq] at hsp
      have hn : c.toNat = 32 ∨ c.toNat = 9 ∨ c.toNat = 13 ∨ c.toNat = 10 := by
        rcases hsp with ((h | h) | h) | h <;> subst h <;> decide
      omega
  · cases hend : ContainsRune optionEndingChars c with
    | false => rfl
    | true =>
      have hall : ∀ x ∈ optionEndingChars.data,
          ¬ ((48 ≤ x.toNat ∧ x.toNat ≤ 57) ∨ (65 ≤ x.toNat ∧ x.toNat ≤ 90) ∨
            (97 ≤ x.toNat ∧ x.toNat ≤ 122) ∨ 192 ≤ x.toNat ∨ x.toNat = 45 ∨ x.toNat = 95) := by
        decide
      have hmem : c ∈ optionEndingChars.data := by
        simpa [ContainsRune] using hend
      exact absurd hr (hall c hmem)

/-- Witness for claim C14: the option `-la` after `ls`, and the option `--color_1`
after `xyz`, with the library and the sanitizer of the examples. -/
theorem sanitizeCmdLine_keeps_option_witness :
    demoLib.Sane ∧ "la".data = 'l' :: ['a'] ∧ demoLib.IsLetter 'l' = true ∧
    demoSanitizer.sanitizeCmdLine demoLib ("ls" ++ " -" ++ "la")
      = ((demoSanitizer.sanitizeCmdLine demoLib ("ls" ++ " -")).1 ++ utf8 "la", none) ∧
    demoSanitizer.sanitizeCmdLine demoLib ("ls" ++ " --" ++ "la")
      = ((demoSanitizer.sanitizeCmdLine demoLib ("ls" ++ " --")).1 ++ utf8 "la", none) :=
  ⟨demoLib_sane, rfl, by decide,
    (sanitizeCmdLine_keeps_option demoLib demoSanitizer "ls" "la" 'l' ['a'] demoLib_sane rfl
      (Or.inl (by decide)) (by decide)).1,
    (sanitizeCmdLine_keeps_option demoLib demoSanitizer "ls" "la" 'l' ['a'] demoLib_sane rfl
      (Or.inl (by decide)) (by decide)).2⟩

/-- The command line `xyz --color_1 -x` evaluated with the examples' library, whose
digest is twenty zero bytes: the word `xyz` is replaced by twelve hexadecimal
characters, the two options are kept. -/
theorem sanitizeCmdLine_example :
    demoSanitizer.sanitizeCmdLine demoLib "xyz --color_1 -x"
      = (utf8 "000000000000 --color_1 -x", none) := by
  rfl

end Resh
